import Mathlib

/-!
Verification of the markdown-sanitising / parsing / rendering core of
`current_main.py` (OpenWebUI export functions).

The Python source is shallowly embedded: every string-transforming helper is
translated to an executable Lean function on `String` / `List Char`.  Python's
regular-expression substitutions are modelled by explicit scanning functions
that follow the leftmost, lazy/greedy and lookaround semantics of the concrete
patterns appearing in the source.  Scanning functions that restart after a
match use an explicit fuel argument (initialised with the list length, which
is always sufficient since every step consumes at least one character); the
fuel-exhausted branch returns the remaining input unchanged.

Whitespace (`str.strip`, `str.split()`, regex `\s`) is modelled over the ASCII
whitespace set.
-/

/-- Whitespace test modelling Python's `\s` / `str.strip` (ASCII range). -/
def pyIsSpace (c : Char) : Bool :=
  c = ' ' || c = '\t' || c = '\n' || c = '\r' || c = '\x0b' || c = '\x0c'

/-- Python `str.lstrip()` on a character list. -/
def lstripL (l : List Char) : List Char := l.dropWhile pyIsSpace

/-- Python `str.rstrip()` on a character list. -/
def rstripL (l : List Char) : List Char := (l.reverse.dropWhile pyIsSpace).reverse

/-- Python `str.strip()` on a character list. -/
def stripL (l : List Char) : List Char := rstripL (lstripL l)

/-- Python `str.strip()`. -/
def pyStrip (s : String) : String := ⟨stripL s.data⟩

/-- Python `str.rstrip()`. -/
def pyRstrip (s : String) : String := ⟨rstripL s.data⟩

/-- `s.startswith(p)` (total, character-level). -/
def sstarts (p s : String) : Bool := p.data.isPrefixOf s.data

/-- `s.endswith(p)` (total, character-level). -/
def sends (p s : String) : Bool := p.data.isSuffixOf s.data

/-- Drop the first `n` characters of a string. -/
def sdrop (n : Nat) (s : String) : String := ⟨s.data.drop n⟩

/-- Helper for `splitOnChar`, carrying the reversed current chunk. -/
def splitOnCharGo (sep : Char) : List Char → List Char → List (List Char)
  | acc, [] => [acc.reverse]
  | acc, c :: tl =>
    if c = sep then acc.reverse :: splitOnCharGo sep [] tl
    else splitOnCharGo sep (c :: acc) tl

/-- Python `str.split(sep)` for a single-character separator. -/
def splitOnChar (sep : Char) (l : List Char) : List (List Char) :=
  splitOnCharGo sep [] l

/-- Python `sub in s` (substring containment). -/
def hasSub (pat : List Char) : List Char → Bool
  | [] => pat.isPrefixOf []
  | c :: tl => pat.isPrefixOf (c :: tl) || hasSub pat (tl)

/-- Python `"\n".join(lines)` on character lists. -/
def joinNL (lines : List (List Char)) : List Char := List.intercalate ['\n'] lines

/-- Python `"\n".join` on strings. -/
def sjoinNL (lines : List String) : String := ⟨joinNL (lines.map String.data)⟩

/-- Value of a decimal digit string, as computed by Python `int`. -/
def natOfDigits (ds : List Char) : Nat := ds.foldl (fun n c => n * 10 + (c.toNat - 48)) 0

/-- Decimal rendering of a natural number (the model of Python f-string
`{n}` formatting), accumulator-based with sufficient fuel. -/
def natToDecGo : Nat → Nat → List Char → List Char
  | 0, _, acc => acc
  | f + 1, n, acc =>
    let d := Char.ofNat (48 + n % 10)
    if n < 10 then d :: acc else natToDecGo f (n / 10) (d :: acc)

/-- Decimal digits of `n`. -/
def natToDec (n : Nat) : List Char := natToDecGo (n + 1) n []

/-- The backtick character (inline-code delimiter). -/
def backtick : Char := Char.ofNat 96

/-- Python `str.replace(pat, rep)` (all non-overlapping occurrences, left to
right).  Fuel-driven scan; `replaceSub` supplies sufficient fuel. -/
def replaceSubGo (pat rep : List Char) : Nat → List Char → List Char
  | 0, l => l
  | _ + 1, [] => []
  | f + 1, c :: tl =>
    if pat ≠ [] ∧ pat.isPrefixOf (c :: tl) then
      rep ++ replaceSubGo pat rep f ((c :: tl).drop pat.length)
    else c :: replaceSubGo pat rep f tl

/-- Python `str.replace(pat, rep)`. -/
def replaceSub (pat rep l : List Char) : List Char := replaceSubGo pat rep l.length l

/-!  Model of `_clean_inline_markdown`.

Each regex substitution pass of the source becomes one scanning function.
The `formatting_info` bookkeeping of the source is computed but never
consumed (see the spec's design notes), yet it influences behaviour in one
place: `replace_bold` evaluates `len(content)` on
`content = match.group(1) or match.group(2)`, and when the star alternative
matches with empty content (an occurrence of `****`), `group(1)` is the
falsy empty string, `content` becomes `group(2) = None`, and `len(None)`
raises `TypeError`.  The total functions below model the behaviour on
inputs where the code does not raise; the fallible `Option`-valued variants
(`sub_bold_go_py`, `cleanL_py`, `process_markdown_line_py`,
`parse_markdown_structure_py`) model the raising path as well, returning
`none` exactly where the code raises, and agree with the total functions
whenever they return `some` (the `_py_agrees` lemmas).  -/

/-- Find the first adjacent pair `dd` (the closing delimiter of the lazy
pattern `(.*?)dd`); fails on a newline, which `.` does not match.
Returns the characters before the pair and the suffix after it. -/
def findDD (d : Char) : List Char → Option (List Char × List Char)
  | a :: b :: tl =>
    if a = d ∧ b = d then some ([], tl)
    else if a = '\n' then none
    else
      match findDD d (b :: tl) with
      | some (pre, post) => some (a :: pre, post)
      | none => none
  | _ => none

/-- One pass of `re.sub(r"\*\*(.*?)\*\*|__(.*?)__", replace_bold, text)` on
inputs where `replace_bold` does not raise: bold delimiters are removed,
keeping the lazily captured content.  The source raises `TypeError` when the
star alternative matches with empty content; `sub_bold_go_py` models that
error path faithfully, and `sub_bold_go_py_agrees` shows this total function
agrees with it whenever it succeeds. -/
def sub_bold_go : Nat → List Char → List Char
  | 0, l => l
  | _ + 1, [] => []
  | f + 1, c :: tl =>
    if (c = '*' ∧ tl.head? = some '*') ∨ (c = '_' ∧ tl.head? = some '_') then
      match findDD c tl.tail with
      | some (content, rest) => content ++ sub_bold_go f rest
      | none => c :: sub_bold_go f tl
    else c :: sub_bold_go f tl

/-- Closing search for the italic pattern: after the opening delimiter and the
first content character, find the lazily shortest `mid ++ [c2]` such that `c2`
is not the delimiter and not whitespace, the next character is the delimiter,
and the character after that is not the delimiter (the `(?!\*)` lookahead).
`.` does not match a newline, so the scan aborts on `'\n'`. -/
def findIC (d : Char) : List Char → Option (List Char × List Char)
  | c2 :: e :: tl =>
    if (¬ c2 = d ∧ ¬ pyIsSpace c2) ∧ e = d ∧ ¬ tl.head? = some d then
      some ([c2], tl)
    else if c2 = '\n' then none
    else
      match findIC d (e :: tl) with
      | some (mid, rest) => some (c2 :: mid, rest)
      | none => none
  | _ => none

/-- One pass of the italic substitution
`re.sub(r"(?<!\*)\*([^*\s].*?[^*\s])\*(?!\*)|(?<!_)_([^_\s].*?[^_\s])_(?!_)", content, text)`.
`prev` is the character before the current position (for the lookbehinds). -/
def sub_italic_go : Nat → Option Char → List Char → List Char
  | 0, _, l => l
  | _ + 1, _, [] => []
  | f + 1, prev, c :: tl =>
    if (c = '*' ∨ c = '_') ∧ ¬ prev = some c then
      match tl with
      | c1 :: rest =>
        if ¬ c1 = c ∧ ¬ pyIsSpace c1 then
          match findIC c rest with
          | some (mid, rest') => (c1 :: mid) ++ sub_italic_go f (some c) rest'
          | none => c :: sub_italic_go f (some c) tl
        else c :: sub_italic_go f (some c) tl
      | [] => c :: sub_italic_go f (some c) tl
    else c :: sub_italic_go f (some c) tl

/-- One pass of `re.sub(r"~~(.*?)~~", content, text)` (strikethrough). -/
def sub_strike_go : Nat → List Char → List Char
  | 0, l => l
  | _ + 1, [] => []
  | f + 1, c :: tl =>
    if c = '~' ∧ tl.head? = some '~' then
      match findDD '~' tl.tail with
      | some (content, rest) => content ++ sub_strike_go f rest
      | none => c :: sub_strike_go f tl
    else c :: sub_strike_go f tl

/-- Split at the first occurrence of character `d`. -/
def splitAtCh (d : Char) : List Char → Option (List Char × List Char)
  | [] => none
  | c :: tl =>
    if c = d then some ([], tl)
    else
      match splitAtCh d tl with
      | some (pre, post) => some (c :: pre, post)
      | none => none

/-- One pass of `re.sub(r"`([^`]+)`", content, text)` (inline code). -/
def sub_code_go : Nat → List Char → List Char
  | 0, l => l
  | _ + 1, [] => []
  | f + 1, c :: tl =>
    if c = backtick then
      match splitAtCh backtick tl with
      | some (content, rest) =>
        if content ≠ [] then content ++ sub_code_go f rest
        else c :: sub_code_go f tl
      | none => c :: sub_code_go f tl
    else c :: sub_code_go f tl

/-- One pass of `re.sub(r"\[([^\]]+)\]\(([^)]+)\)", text (url), text)` (links). -/
def sub_links_go : Nat → List Char → List Char
  | 0, l => l
  | _ + 1, [] => []
  | f + 1, c :: tl =>
    if c = '[' then
      match splitAtCh ']' tl with
      | some (textPart, rest1) =>
        if textPart ≠ [] then
          match rest1 with
          | '(' :: rest2 =>
            match splitAtCh ')' rest2 with
            | some (urlPart, rest3) =>
              if urlPart ≠ [] then
                textPart ++ [' ', '('] ++ urlPart ++ [')'] ++ sub_links_go f rest3
              else c :: sub_links_go f tl
            | none => c :: sub_links_go f tl
          | _ => c :: sub_links_go f tl
        else c :: sub_links_go f tl
      | none => c :: sub_links_go f tl
    else c :: sub_links_go f tl

/-- `re.sub(r"[<>]", "", text)`: remove angle brackets. -/
def remove_angles (l : List Char) : List Char :=
  l.filter (fun c => ¬ (c = '<' ∨ c = '>'))

/-- `re.sub(r"\\\*", "*", text)` and `re.sub(r"\\_", "_", text)`:
unescape a backslash-escaped occurrence of `t`. -/
def unescape_char (t : Char) : List Char → List Char
  | [] => []
  | [c] => [c]
  | c :: d :: tl =>
    if c = '\\' ∧ d = t then t :: unescape_char t tl
    else c :: unescape_char t (d :: tl)

/-- `re.sub(r"\s+", " ", text)`: collapse each whitespace run to one space. -/
def collapse_ws_go : Nat → List Char → List Char
  | 0, l => l
  | _ + 1, [] => []
  | f + 1, c :: tl =>
    if pyIsSpace c then ' ' :: collapse_ws_go f (tl.dropWhile pyIsSpace)
    else c :: collapse_ws_go f tl

/-- `_clean_inline_markdown` on character lists: the source's substitution
passes in order (bold, italic, strikethrough, inline code, links, angle
brackets, unescapes, whitespace collapse + strip). -/
def cleanL (l : List Char) : List Char :=
  let l1 := sub_bold_go l.length l
  let l2 := sub_italic_go l1.length none l1
  let l3 := sub_strike_go l2.length l2
  let l4 := sub_code_go l3.length l3
  let l5 := sub_links_go l4.length l4
  let l6 := remove_angles l5
  let l7 := unescape_char '*' l6
  let l8 := unescape_char '_' l7
  stripL (collapse_ws_go l8.length l8)

/-- `_clean_inline_markdown(text)`. -/
def clean_inline_markdown (s : String) : String := ⟨cleanL s.data⟩

/-- The bold pass with the source's error path.  `replace_bold` computes
`content = match.group(1) or match.group(2)`, so when the star alternative
`\*\*(.*?)\*\*` matches with empty content, `group(1)` is the falsy empty
string, `content` becomes `group(2) = None`, and the bookkeeping line
`formatting_info.append(("bold", start, start + len(content), content))`
raises `TypeError` at `len(None)`: modelled as `none`.  An empty
underscore-bold match (`____`) is harmless: there `group(1) = None` and
`content` is the empty string `group(2)`. -/
def sub_bold_go_py : Nat → List Char → Option (List Char)
  | 0, l => some l
  | _ + 1, [] => some []
  | f + 1, c :: tl =>
    if c = '*' ∧ tl.head? = some '*' then
      match findDD '*' tl.tail with
      | some (content, rest) =>
        if content = [] then none
        else (sub_bold_go_py f rest).map (fun r => content ++ r)
      | none => (sub_bold_go_py f tl).map (fun r => c :: r)
    else if c = '_' ∧ tl.head? = some '_' then
      match findDD '_' tl.tail with
      | some (content, rest) => (sub_bold_go_py f rest).map (fun r => content ++ r)
      | none => (sub_bold_go_py f tl).map (fun r => c :: r)
    else (sub_bold_go_py f tl).map (fun r => c :: r)

/-- `_clean_inline_markdown` with the source's error path: `none` exactly
when the bold pass raises.  No later pass can raise: both italic
alternatives capture at least one character (so the matched group is
truthy), and the strikethrough, inline-code and link replacements never
evaluate `len` on a possibly-`None` group. -/
def cleanL_py (l : List Char) : Option (List Char) :=
  (sub_bold_go_py l.length l).map (fun l1 =>
    let l2 := sub_italic_go l1.length none l1
    let l3 := sub_strike_go l2.length l2
    let l4 := sub_code_go l3.length l3
    let l5 := sub_links_go l4.length l4
    let l6 := remove_angles l5
    let l7 := unescape_char '*' l6
    let l8 := unescape_char '_' l7
    stripL (collapse_ws_go l8.length l8))

/-!  Model of `_remove_ai_artifacts`. -/

/-- The `re.sub(r"^Thought for \d+ seconds\n", "", ...)` step: remove a
leading "Thought for N seconds" line (the pattern is anchored at the start,
so at most one removal happens). -/
def strip_thought (l : List Char) : List Char :=
  if ("Thought for ".data).isPrefixOf l then
    let rest := l.drop 12
    let ds := rest.takeWhile Char.isDigit
    let rest2 := rest.drop ds.length
    if ds ≠ [] ∧ (" seconds\n".data).isPrefixOf rest2 then rest2.drop 9 else l
  else l

/-- The `re.search(r"^#+\s*.*$", text, re.MULTILINE)` step: the match starts
at the first line that begins with a `#` character (the `\s*.*$` part always
succeeds), and `text[match.start():]` keeps everything from that line on;
without such a line the text is unchanged. -/
def drop_before_hash (l : List Char) : List Char :=
  let lines := splitOnChar '\n' l
  match lines.findIdx? (fun ln => ln.head? = some '#') with
  | some i => joinNL (lines.drop i)
  | none => l

/-- The fixed punctuation-look-alike replacement table of
`_remove_ai_artifacts`, applied in source order. -/
def unicode_replacements : List (List Char) :=
  ["\u00e2\u2013\u00a0".data, "\u2011".data, "\u2012".data, "\u00ad".data,
   "\u2013".data, "\u2014".data]

/-- The zero-width removal step (regex character class U+200B to U+200D plus
U+FEFF): drop zero-width characters and the byte-order mark. -/
def remove_zero_width (l : List Char) : List Char :=
  l.filter (fun c => ¬ (('\u200b' ≤ c ∧ c ≤ '\u200d') ∨ c = '\ufeff'))

/-- `_remove_ai_artifacts(text)`. -/
def remove_ai_artifacts (s : String) : String :=
  let t1 := strip_thought (stripL s.data)
  let t2 := drop_before_hash t1
  let t3 := unicode_replacements.foldl (fun acc old => replaceSub old "-".data acc) t2
  ⟨stripL (remove_zero_width t3)⟩

/-!  Model of `_process_table_line`, `_process_markdown_line` and
`_parse_markdown_structure`. -/

/-- `_process_table_line(line)`. -/
def process_table_line (line : List Char) : List Char :=
  if hasSub "---".data line then "[TABLE_SEPARATOR]".data
  else
    let cells0 := (splitOnChar '|' line).map stripL
    let cells1 := if cells0.head? = some [] then cells0.drop 1 else cells0
    let cells2 := if cells1 ≠ [] ∧ cells1.getLast? = some [] then cells1.dropLast else cells1
    "[TABLE_ROW]".data ++ List.intercalate ['|'] (cells2.map cleanL)

/-- The list-item pattern `^(\s*)([*+-]|\d+\.)\s+(.+)` of
`_process_markdown_line`: returns (indent length, marker is numbered,
captured content).  When everything after the whitespace run is empty, the
greedy `\s+` backtracks one character and `(.+)` captures that single
whitespace character. -/
def list_match (line : List Char) : Option (Nat × Bool × List Char) :=
  let indent := line.takeWhile pyIsSpace
  let rest := line.drop indent.length
  let marker : Option (Bool × List Char) :=
    match rest.head? with
    | some c =>
      if c = '*' ∨ c = '+' ∨ c = '-' then some (false, rest.tail)
      else
        let ds := rest.takeWhile Char.isDigit
        if ds ≠ [] ∧ (rest.drop ds.length).head? = some '.' then
          some (true, rest.drop (ds.length + 1))
        else none
    | none => none
  match marker with
  | some (numbered, after) =>
    let run := after.takeWhile pyIsSpace
    let r := after.drop run.length
    if run = [] then none
    else if r ≠ [] then some (indent.length, numbered, r)
    else if run.length ≥ 2 then some (indent.length, numbered, [run.getLast?.getD ' '])
    else none
  | none => none

/-- The horizontal-rule test `re.match(r"^[-*_]{3,}$", line.strip())`. -/
def is_hrule (line : List Char) : Bool :=
  let s := stripL line
  s.length ≥ 3 ∧ s.all (fun c => c = '-' ∨ c = '*' ∨ c = '_')

/-- `_process_markdown_line(line)`.  Mirrors the source's dispatch order:
blank, heading, horizontal rule, list item, blockquote, table, paragraph. -/
def process_markdown_line (line : List Char) : List Char :=
  if stripL line = [] then []
  else if line.head? = some '#' then
    let hashes := line.takeWhile (fun c => c = '#')
    let title := stripL ((line.drop hashes.length).dropWhile pyIsSpace)
    "[HEADING_".data ++ natToDec hashes.length ++ [']'] ++ cleanL title
  else if is_hrule line then "[HORIZONTAL_RULE]".data
  else
    match list_match line with
    | some (indentLen, numbered, content) =>
      "[LIST_".data ++ (if numbered then "NUMBERED".data else "BULLET".data) ++
        ['_'] ++ natToDec (indentLen / 2) ++ [']'] ++ cleanL content
    | none =>
      if line.head? = some '>' then
        "[BLOCKQUOTE]".data ++ cleanL ((line.drop 1).dropWhile pyIsSpace)
      else if hasSub ['|'] line ∧ (stripL line).head? = some '|' then
        process_table_line line
      else "[PARAGRAPH]".data ++ cleanL line

/-- The line loop of `_parse_markdown_structure`: `inCode` and `buf` are the
`in_code_block` / `code_block_content` state; every raw line is first
right-stripped. -/
def parse_lines : Bool → List (List Char) → List (List Char) → List (List Char)
  | inCode, buf, [] =>
    if inCode ∧ buf ≠ [] then "[CODE_BLOCK_START]".data :: buf ++ ["[CODE_BLOCK_END]".data]
    else []
  | inCode, buf, raw :: rest =>
    let line := rstripL raw
    if ("```".data).isPrefixOf line then
      if inCode then
        (if buf ≠ [] then "[CODE_BLOCK_START]".data :: buf ++ ["[CODE_BLOCK_END]".data] else []) ++
          parse_lines false [] rest
      else parse_lines true buf rest
    else if inCode then parse_lines true (buf ++ [line]) rest
    else process_markdown_line line :: parse_lines false [] rest

/-- `_parse_markdown_structure(text)`. -/
def parse_markdown_structure (s : String) : String :=
  ⟨joinNL (parse_lines false [] (splitOnChar '\n' s.data))⟩

/-- The list comprehension `[f(cell) for cell in cells]` over a fallible
`f`: fails at the first element where `f` raises. -/
def mapOptM (f : List Char → Option (List Char)) :
    List (List Char) → Option (List (List Char))
  | [] => some []
  | x :: xs =>
    match f x with
    | some y => (mapOptM f xs).map (fun ys => y :: ys)
    | none => none

/-- `_process_table_line` with the source's error path: each cell is passed
through `_clean_inline_markdown`, which can raise. -/
def process_table_line_py (line : List Char) : Option (List Char) :=
  if hasSub "---".data line then some ("[TABLE_SEPARATOR]".data)
  else
    let cells0 := (splitOnChar '|' line).map stripL
    let cells1 := if cells0.head? = some [] then cells0.drop 1 else cells0
    let cells2 := if cells1 ≠ [] ∧ cells1.getLast? = some [] then cells1.dropLast else cells1
    (mapOptM cleanL_py cells2).map
      (fun cs => "[TABLE_ROW]".data ++ List.intercalate ['|'] cs)

/-- `_process_markdown_line` with the source's error path: every branch that
calls `_clean_inline_markdown` (heading, list item, blockquote, table row,
paragraph) can raise. -/
def process_markdown_line_py (line : List Char) : Option (List Char) :=
  if stripL line = [] then some []
  else if line.head? = some '#' then
    let hashes := line.takeWhile (fun c => c = '#')
    let title := stripL ((line.drop hashes.length).dropWhile pyIsSpace)
    (cleanL_py title).map
      (fun ct => "[HEADING_".data ++ natToDec hashes.length ++ [']'] ++ ct)
  else if is_hrule line then some ("[HORIZONTAL_RULE]".data)
  else
    match list_match line with
    | some (indentLen, numbered, content) =>
      (cleanL_py content).map
        (fun cc => "[LIST_".data ++ (if numbered then "NUMBERED".data else "BULLET".data) ++
          ['_'] ++ natToDec (indentLen / 2) ++ [']'] ++ cc)
    | none =>
      if line.head? = some '>' then
        (cleanL_py ((line.drop 1).dropWhile pyIsSpace)).map
          (fun cq => "[BLOCKQUOTE]".data ++ cq)
      else if hasSub ['|'] line ∧ (stripL line).head? = some '|' then
        process_table_line_py line
      else (cleanL_py line).map (fun cl => "[PARAGRAPH]".data ++ cl)

/-- The line loop of `_parse_markdown_structure` with the source's error
path: an exception raised while processing any line aborts the whole parse. -/
def parse_lines_py : Bool → List (List Char) → List (List Char) → Option (List (List Char))
  | inCode, buf, [] =>
    some (if inCode ∧ buf ≠ [] then
      "[CODE_BLOCK_START]".data :: buf ++ ["[CODE_BLOCK_END]".data] else [])
  | inCode, buf, raw :: rest =>
    let line := rstripL raw
    if ("```".data).isPrefixOf line then
      if inCode then
        (parse_lines_py false [] rest).map (fun out =>
          (if buf ≠ [] then
            "[CODE_BLOCK_START]".data :: buf ++ ["[CODE_BLOCK_END]".data] else []) ++ out)
      else parse_lines_py true buf rest
    else if inCode then parse_lines_py true (buf ++ [line]) rest
    else
      match process_markdown_line_py line with
      | some p => (parse_lines_py false [] rest).map (fun out => p :: out)
      | none => none

/-- `_parse_markdown_structure(text)` with the source's error path: `none`
when processing some line raises `TypeError`. -/
def parse_markdown_structure_py (s : String) : Option String :=
  (parse_lines_py false [] (splitOnChar '\n' s.data)).map (fun ls => ⟨joinNL ls⟩)

/-!  Model of the Page Renderer `_convert_structured_content_to_html`.

The renderer is a stateful line loop; it is modelled as a step function
`stepHtml` over an explicit state record plus the end-of-stream closing
`endHtml`, emitting the `html_lines` list that the source joins with
newlines. -/

/-- Python `html.escape(c)` for one character (quote=True default). -/
def html_escape_char (c : Char) : List Char :=
  if c = '&' then "&amp;".data
  else if c = '<' then "&lt;".data
  else if c = '>' then "&gt;".data
  else if c = '"' then "&quot;".data
  else if c = Char.ofNat 39 then "&#x27;".data
  else [c]

/-- Python `html.escape(s)` (with its default quote=True). -/
def html_escape (s : String) : String := ⟨(s.data.map html_escape_char).flatten⟩

/-- Parse `prefix(\d+)](.*)` as used by the renderers' heading regex
`\[HEADING_(\d+)\](.*)`: after the given prefix, a nonempty digit string,
a closing bracket, then the text. -/
def parse_tag_num (pre : String) (line : String) : Option (Nat × String) :=
  if pre.data.isPrefixOf line.data then
    let rest := line.data.drop pre.data.length
    let ds := rest.takeWhile Char.isDigit
    if ds ≠ [] ∧ (rest.drop ds.length).head? = some ']' then
      some (natOfDigits ds, ⟨rest.drop (ds.length + 1)⟩)
    else none
  else none

/-- Parse the renderers' list regex `\[LIST_(BULLET|NUMBERED)_(\d+)\](.*)`:
returns (numbered flag, level, text). -/
def parse_list_line (line : String) : Option (Bool × Nat × String) :=
  match parse_tag_num "[LIST_BULLET_" line with
  | some (lvl, text) => some (false, lvl, text)
  | none =>
    match parse_tag_num "[LIST_NUMBERED_" line with
    | some (lvl, text) => some (true, lvl, text)
    | none => none

/-- `_finalize_html_table(table_rows)`: header row wrapped in `thead`,
remaining rows in `tbody`; an empty row set renders to "". -/
def finalize_html_table (rows : List (List String)) : String :=
  match rows with
  | [] => ""
  | hd :: tl =>
    "<table><thead><tr>" ++ String.join (hd.map (fun c => "<th>" ++ c ++ "</th>")) ++
      "</tr></thead><tbody>" ++
      String.join (tl.map (fun r =>
        "<tr>" ++ String.join (r.map (fun c => "<td>" ++ c ++ "</td>")) ++ "</tr>")) ++
      "</tbody></table>"

/-- The mutable local state of `_convert_structured_content_to_html`. -/
structure HtmlSt where
  inList : Option String := none
  listLevel : Int := -1
  inTable : Bool := false
  tableRows : List (List String) := []
  inCode : Bool := false
  codeLines : List String := []
deriving DecidableEq, Repr

/-- The `if in_list: ...` close in `_convert_structured_content_to_html`. -/
def closeListHtml (s : HtmlSt) : HtmlSt × List String :=
  match s.inList with
  | some t => ({ s with inList := none }, ["</" ++ t ++ ">"])
  | none => (s, [])

/-- The `if in_table: ...` flush in `_convert_structured_content_to_html`
(the finalised table string is appended even when it is empty). -/
def flushTableHtml (s : HtmlSt) : HtmlSt × List String :=
  if s.inTable then
    ({ s with inTable := false, tableRows := [] }, [finalize_html_table s.tableRows])
  else (s, [])

/-- The code-block emission `<pre><code>...</code></pre>`. -/
def htmlCodeBlock (codeLines : List String) : String :=
  "<pre><code>" ++ html_escape (sjoinNL codeLines) ++ "</code></pre>"

/-- One iteration of the line loop of `_convert_structured_content_to_html`:
given the current state and the line, the next state and the emitted
`html_lines`.  The branch chain mirrors the source: code-block markers,
buffered code lines, headings, horizontal rules, lists, blockquotes,
table lines, paragraphs; blank and unrecognised lines fall through with no
effect. -/
def stepHtml (s : HtmlSt) (line : String) : HtmlSt × List String :=
  if line = "[CODE_BLOCK_START]" then ({ s with inCode := true, codeLines := [] }, [])
  else if line = "[CODE_BLOCK_END]" then
    ({ s with inCode := false, codeLines := [] },
      if s.codeLines ≠ [] then [htmlCodeBlock s.codeLines] else [])
  else if s.inCode then ({ s with codeLines := s.codeLines ++ [line] }, [])
  else if sstarts "[HEADING_" line then
    let (s1, o1) := closeListHtml s
    let (s2, o2) := flushTableHtml s1
    match parse_tag_num "[HEADING_" line with
    | some (lvl, text) =>
      let m := min lvl 6
      (s2, o1 ++ o2 ++
        ["<h" ++ toString m ++ ">" ++ html_escape text ++ "</h" ++ toString m ++ ">"])
    | none => (s2, o1 ++ o2)
  else if line = "[HORIZONTAL_RULE]" then
    let (s1, o1) := closeListHtml s
    let (s2, o2) := flushTableHtml s1
    (s2, o1 ++ o2 ++ ["<hr>"])
  else if sstarts "[LIST_" line then
    let (s1, o1) := flushTableHtml s
    match parse_list_line line with
    | some (numbered, lvl, text) =>
      let tag := if numbered then "ol" else "ul"
      let item := "<li>" ++ html_escape text ++ "</li>"
      if ¬ s1.inList = some tag ∨ ¬ (lvl : Int) = s1.listLevel then
        let closePart := match s1.inList with
          | some t => ["</" ++ t ++ ">"]
          | none => []
        ({ s1 with inList := some tag, listLevel := (lvl : Int) },
          o1 ++ closePart ++ ["<" ++ tag ++ ">", item])
      else (s1, o1 ++ [item])
    | none => (s1, o1)
  else if sstarts "[BLOCKQUOTE]" line then
    let (s1, o1) := closeListHtml s
    let (s2, o2) := flushTableHtml s1
    (s2, o1 ++ o2 ++
      ["<blockquote><p>" ++ html_escape (sdrop 12 line) ++ "</p></blockquote>"])
  else if sstarts "[TABLE_" line then
    let (s1, o1) := closeListHtml s
    if line = "[TABLE_SEPARATOR]" then (s1, o1)
    else if sstarts "[TABLE_ROW]" line then
      let s2 := if ¬ s1.inTable then { s1 with inTable := true, tableRows := [] } else s1
      let cells := (splitOnChar '|' (sdrop 11 line).data).map
        (fun c => html_escape ⟨stripL c⟩)
      ({ s2 with tableRows := s2.tableRows ++ [cells] }, o1)
    else (s1, o1)
  else if sstarts "[PARAGRAPH]" line then
    let (s1, o1) := closeListHtml s
    let (s2, o2) := flushTableHtml s1
    let text := sdrop 11 line
    (s2, o1 ++ o2 ++
      (if ¬ pyStrip text = "" then ["<p>" ++ html_escape text ++ "</p>"] else []))
  else (s, [])

/-- The closes after the loop of `_convert_structured_content_to_html`:
a still-open list, a still-open table, a still-buffered code block. -/
def endHtml (s : HtmlSt) : List String :=
  (match s.inList with
    | some t => ["</" ++ t ++ ">"]
    | none => []) ++
  (if s.inTable then [finalize_html_table s.tableRows] else []) ++
  (if s.inCode ∧ s.codeLines ≠ [] then [htmlCodeBlock s.codeLines] else [])

/-- The full line loop of the Page Renderer over already-split lines. -/
def render_html_lines : HtmlSt → List String → List String
  | s, [] => endHtml s
  | s, l :: ls =>
    let p := stepHtml s l
    p.2 ++ render_html_lines p.1 ls

/-- `_convert_structured_content_to_html(content)`. -/
def convert_structured_content_to_html (content : String) : String :=
  sjoinNL (render_html_lines {}
    ((splitOnChar '\n' (pyStrip content).data).map (fun l => (⟨l⟩ : String))))

/-!  Model of the Document Renderer `_add_structured_content_to_docx`.

The source emits word-processor elements by mutating a `docx` document; the
embedding represents each emitted element as a `DocxElem` value, so the
renderer becomes a function from the structured content to the ordered list
of elements added to the document. -/

/-- One document element added by the Document Renderer.  `para` carries the
run text, whether the run is italic, and the paragraph alignment. -/
inductive DocxElem where
  | heading (level : Nat) (text : String)
  | para (text : String) (italic : Bool) (align : String)
  | listItem (text : String) (numbered : Bool) (level : Nat)
  | quote (text : String)
  | code (content : String)
  | rule
  | table (rows : List (List String))
deriving DecidableEq, Repr

/-- `_add_clean_paragraph_to_docx(doc, text)`: the stripped text is unwrapped
and italicised when it is wrapped in a single pair of underscores and longer
than two characters; the paragraph alignment is always LEFT. -/
def add_clean_paragraph_to_docx (text : String) : DocxElem :=
  let ct := pyStrip text
  if sstarts "_" ct ∧ sends "_" ct ∧ ct.length > 2 then
    .para ⟨(ct.data.drop 1).dropLast⟩ true "LEFT"
  else .para ct false "LEFT"

/-- Pad a row to `n` cells with empty strings (a `docx` table row is created
with `num_cols` empty cells and only the first `num_cols` values are set). -/
def padCells (n : Nat) (r : List String) : List String :=
  r ++ List.replicate (n - r.length) ""

/-- `_finalize_docx_table(doc, table_rows)`: nothing is added for an empty
row set or a zero-column header; otherwise one table whose column count is
the header's length, each cell stripped, data rows truncated/padded to the
column count. -/
def finalize_docx_table (rows : List (List String)) : List DocxElem :=
  match rows with
  | [] => []
  | hd :: tl =>
    if hd.length = 0 then []
    else
      [.table ((hd.map pyStrip) ::
        tl.map (fun r => padCells hd.length ((r.take hd.length).map pyStrip)))]

/-- The mutable local state of `_add_structured_content_to_docx`. -/
structure DocxSt where
  currentListType : Option String := none
  listLevel : Int := -1
  inTable : Bool := false
  tableRows : List (List String) := []
  inCode : Bool := false
  codeLines : List String := []
deriving DecidableEq, Repr

/-- The `if in_table: ...` flush in `_add_structured_content_to_docx`. -/
def flushTableDocx (s : DocxSt) : DocxSt × List DocxElem :=
  if s.inTable then
    ({ s with inTable := false, tableRows := [] }, finalize_docx_table s.tableRows)
  else (s, [])

/-- One iteration of the line loop of `_add_structured_content_to_docx`,
mirroring the source's branch chain. -/
def stepDocx (s : DocxSt) (line : String) : DocxSt × List DocxElem :=
  if line = "[CODE_BLOCK_START]" then ({ s with inCode := true, codeLines := [] }, [])
  else if line = "[CODE_BLOCK_END]" then
    ({ s with inCode := false, codeLines := [] },
      if s.codeLines ≠ [] then [.code (sjoinNL s.codeLines)] else [])
  else if s.inCode then ({ s with codeLines := s.codeLines ++ [line] }, [])
  else if sstarts "[HEADING_" line then
    let s1 := { s with currentListType := none }
    let (s2, o2) := flushTableDocx s1
    match parse_tag_num "[HEADING_" line with
    | some (lvl, text) => (s2, o2 ++ [.heading lvl (pyStrip text)])
    | none => (s2, o2)
  else if line = "[HORIZONTAL_RULE]" then
    let s1 := { s with currentListType := none }
    let (s2, o2) := flushTableDocx s1
    (s2, o2 ++ [.rule])
  else if sstarts "[LIST_" line then
    let (s1, o1) := flushTableDocx s
    match parse_list_line line with
    | some (numbered, lvl, text) =>
      let listType := if numbered then "NUMBERED" else "BULLET"
      let s2 :=
        if ¬ s1.currentListType = some listType ∨ ¬ (lvl : Int) = s1.listLevel then
          { s1 with currentListType := some listType, listLevel := (lvl : Int) }
        else s1
      (s2, o1 ++ [.listItem (pyStrip text) numbered lvl])
    | none => (s1, o1)
  else if sstarts "[BLOCKQUOTE]" line then
    let s1 := { s with currentListType := none }
    let (s2, o2) := flushTableDocx s1
    (s2, o2 ++ [.quote (pyStrip (sdrop 12 line))])
  else if sstarts "[TABLE_" line then
    let s1 := { s with currentListType := none }
    if line = "[TABLE_SEPARATOR]" then (s1, [])
    else if sstarts "[TABLE_ROW]" line then
      let s2 := if ¬ s1.inTable then { s1 with inTable := true, tableRows := [] } else s1
      let cells := (splitOnChar '|' (sdrop 11 line).data).map (fun c => (⟨stripL c⟩ : String))
      ({ s2 with tableRows := s2.tableRows ++ [cells] }, [])
    else (s1, [])
  else if sstarts "[PARAGRAPH]" line then
    let s1 := { s with currentListType := none }
    let (s2, o2) := flushTableDocx s1
    let text := sdrop 11 line
    (s2, o2 ++
      (if ¬ pyStrip text = "" then [add_clean_paragraph_to_docx text] else []))
  else (s, [])

/-- The closes after the loop of `_add_structured_content_to_docx`:
a still-open table and a still-buffered code block. -/
def endDocx (s : DocxSt) : List DocxElem :=
  (if s.inTable then finalize_docx_table s.tableRows else []) ++
  (if s.inCode ∧ s.codeLines ≠ [] then [.code (sjoinNL s.codeLines)] else [])

/-- The full line loop of the Document Renderer over already-split lines. -/
def render_docx_lines : DocxSt → List String → List DocxElem
  | s, [] => endDocx s
  | s, l :: ls =>
    let p := stepDocx s l
    p.2 ++ render_docx_lines p.1 ls

/-- `_add_structured_content_to_docx(doc, content)` as the list of document
elements added. -/
def add_structured_content_to_docx (content : String) : List DocxElem :=
  render_docx_lines {}
    ((splitOnChar '\n' (pyStrip content).data).map (fun l => (⟨l⟩ : String)))

/-!  Auxiliary definitions used by the claim statements. -/

/-- Modelled from the claim's words (for comparison with the source's
behaviour): a heading line in the sense of claim C4 is one or more `#`
characters followed by a space and content. -/
def claim_heading_line (l : List Char) : Bool :=
  let hashes := l.takeWhile (fun c => c = '#')
  hashes ≠ [] ∧ (l.drop hashes.length).head? = some ' ' ∧ l.drop (hashes.length + 1) ≠ []

/-- No markdown delimiter characters: none of the characters that can trigger
a substitution pass of `_clean_inline_markdown` occurs. -/
def no_markdown_delims (l : List Char) : Bool :=
  l.all (fun c =>
    ¬ (c = '*' ∨ c = '_' ∨ c = '~' ∨ c = backtick ∨ c = '[' ∨ c = ']' ∨ c = '<' ∨ c = '>'))

/-- A structured line that encodes a block other than a table row
(heading, horizontal rule, list item, blockquote or paragraph). -/
def is_nontable_block_line (line : String) : Bool :=
  sstarts "[HEADING_" line || line = "[HORIZONTAL_RULE]" ||
  sstarts "[LIST_" line || sstarts "[BLOCKQUOTE]" line || sstarts "[PARAGRAPH]" line

/-- The cell list the Page Renderer accumulates for a `[TABLE_ROW]` line with
content `r`. -/
def html_row_cells (r : String) : List String :=
  (splitOnChar '|' r.data).map (fun c => html_escape ⟨stripL c⟩)

/-- The cell list the Document Renderer accumulates for a `[TABLE_ROW]` line
with content `r`. -/
def docx_row_cells (r : String) : List String :=
  (splitOnChar '|' r.data).map (fun c => (⟨stripL c⟩ : String))

/-- A structured-parser output line that encodes exactly one block. -/
def is_block_marker (out : List Char) : Bool :=
  "[HEADING_".data.isPrefixOf out || out = "[HORIZONTAL_RULE]".data ||
  "[LIST_".data.isPrefixOf out || "[BLOCKQUOTE]".data.isPrefixOf out ||
  "[TABLE_ROW]".data.isPrefixOf out || "[PARAGRAPH]".data.isPrefixOf out

/-!  General lemmas. -/

lemma sstarts_self_append (p r : String) : sstarts p (p ++ r) = true := by
  rw [sstarts, String.data_append, List.isPrefixOf_iff_prefix]
  exact List.prefix_append p.data r.data

lemma ne_of_sstarts {p line other : String} (h : sstarts p line = true)
    (hother : sstarts p other = false) : ¬ line = other := by
  intro e
  rw [e, hother] at h
  exact Bool.noConfusion h

lemma sstarts_excl {p q line : String} (h : sstarts p line = true)
    (hq : sstarts q p = false) (hlen : q.data.length ≤ p.data.length) :
    sstarts q line = false := by
  cases hql : sstarts q line with
  | false => rfl
  | true =>
    exfalso
    have h1 : p.data <+: line.data := List.isPrefixOf_iff_prefix.mp h
    have h2 : q.data <+: line.data := List.isPrefixOf_iff_prefix.mp hql
    have h3 : q.data <+: p.data := List.prefix_of_prefix_length_le h2 h1 hlen
    rw [← List.isPrefixOf_iff_prefix] at h3
    rw [sstarts] at hq
    rw [hq] at h3
    exact Bool.noConfusion h3

lemma sdrop_self_append (p r : String) (n : Nat) (h : p.data.length = n) :
    sdrop n (p ++ r) = r := by
  subst h
  show String.mk _ = r
  rw [String.data_append, List.drop_left]
lemma sstarts_excl2 {p q line : String} (h : sstarts p line = true)
    (hq : sstarts p q = false) (hlen : p.data.length ≤ q.data.length) :
    sstarts q line = false := by
  cases hql : sstarts q line with
  | false => rfl
  | true =>
    exfalso
    have h1 : p.data <+: line.data := List.isPrefixOf_iff_prefix.mp h
    have h2 : q.data <+: line.data := List.isPrefixOf_iff_prefix.mp hql
    have h3 : p.data <+: q.data := List.prefix_of_prefix_length_le h1 h2 hlen
    rw [← List.isPrefixOf_iff_prefix] at h3
    rw [sstarts] at hq
    rw [hq] at h3
    exact Bool.noConfusion h3

/-!  Claim theorems. -/

/-- C6: on the input lines `- a`, `- b`, `1. c` the Structural Parser
produces exactly the three flat list-item blocks
`[LIST_BULLET_0]a`, `[LIST_BULLET_0]b`, `[LIST_NUMBERED_0]c` (bullet, level 0;
bullet, level 0; numbered, level 0), and the Page Renderer emits the closing
tag `</ul>` of the bullet container before the opening tag `<ol>` of the
numbered container: two separate list containers, not one and not nested. -/
theorem claim6_list_grouping :
    parse_markdown_structure "- a\n- b\n1. c" =
      "[LIST_BULLET_0]a\n[LIST_BULLET_0]b\n[LIST_NUMBERED_0]c" ∧
    render_html_lines {} ["[LIST_BULLET_0]a", "[LIST_BULLET_0]b", "[LIST_NUMBERED_0]c"] =
      ["<ul>", "<li>a</li>", "<li>b</li>", "</ul>", "<ol>", "<li>c</li>", "</ol>"] ∧
    convert_structured_content_to_html (parse_markdown_structure "- a\n- b\n1. c") =
      "<ul>\n<li>a</li>\n<li>b</li>\n</ul>\n<ol>\n<li>c</li>\n</ol>" := by
  decide

/-- C1, counterexample: two table rows separated by a blank line are merged
into a single rendered table by both renderers — the blank line does not
flush the accumulated rows.  The Page Renderer yields one `<table>` whose
header is the first row and whose body is the second row, and the Document
Renderer yields one table element holding both rows, not two one-row
tables. -/
theorem claim1_counterexample :
    convert_structured_content_to_html (parse_markdown_structure "| A |\n\n| B |") =
      "<table><thead><tr><th>A</th></tr></thead><tbody><tr><td>B</td></tr></tbody></table>" ∧
    add_structured_content_to_docx (parse_markdown_structure "| A |\n\n| B |") =
      [DocxElem.table [["A"], ["B"]]] ∧
    ¬ add_structured_content_to_docx (parse_markdown_structure "| A |\n\n| B |") =
      [DocxElem.table [["A"]], DocxElem.table [["B"]]] := by
  decide

/-- C3, counterexample: a code-block interior line with trailing whitespace
is not carried verbatim — the parser right-strips every raw line, including
code interiors, so the fenced line `# x ` (with a trailing space) is stored
as `# x`. -/
theorem claim3_counterexample :
    parse_markdown_structure "```\n# x \n```" =
      "[CODE_BLOCK_START]\n# x\n[CODE_BLOCK_END]" ∧
    ¬ parse_markdown_structure "```\n# x \n```" =
      "[CODE_BLOCK_START]\n# x \n[CODE_BLOCK_END]" := by
  decide

/-- C10, counterexample: in the input `*x* *y*` the two single-character
italic spans are not left unchanged — the italic pattern matches the whole
string as one span with captured content `x* *y`, so the Inline Cleaner
returns `x* *y`. -/
theorem claim10_counterexample :
    clean_inline_markdown "*x* *y*" = "x* *y" ∧
    ¬ clean_inline_markdown "*x* *y*" = "*x* *y*" := by
  decide

/-- C4, counterexample: on the input `junk\n#x` no line matches the claim's
heading pattern (one or more `#` followed by a space and content), yet the
Artifact Sanitizer does not leave the text unchanged: the code's pattern
`^#+\s*.*$` needs no space or content, so everything before `#x` is
discarded. -/
theorem claim4_counterexample :
    (∀ l ∈ splitOnChar '\n' ("junk\n#x".data), claim_heading_line l = false) ∧
    remove_ai_artifacts "junk\n#x" = "#x" ∧
    ¬ ("#x" : String) = "junk\n#x" := by
  decide

/-- C4, amended: the Artifact Sanitizer's discard step keeps the text from
the first line that starts with a `#` character (no following space or
content is required); when no line starts with `#` the text is unchanged
(apart from the other sanitization steps). -/
theorem claim4_amended (s : String) :
    ((∀ l ∈ splitOnChar '\n' s.data, ¬ l.head? = some '#') →
      drop_before_hash s.data = s.data) ∧
    (∀ i, (splitOnChar '\n' s.data).findIdx? (fun ln => ln.head? = some '#') = some i →
      drop_before_hash s.data = joinNL ((splitOnChar '\n' s.data).drop i)) := by
  constructor
  · intro h
    rw [drop_before_hash]
    have hnone : (splitOnChar '\n' s.data).findIdx? (fun ln => ln.head? = some '#') = none := by
      rw [List.findIdx?_eq_none_iff]
      intro x hx
      simpa using h x hx
    rw [hnone]
  · intro i hi
    rw [drop_before_hash, hi]

/-- C4, witness for the amended theorem: `a\nb` has no line starting with
`#` and is left unchanged by the discard step; in `a\n#b` the content before
the line `#b` is discarded. -/
theorem claim4_witness :
    drop_before_hash ("a\nb".data) = "a\nb".data ∧
    drop_before_hash ("a\n#b".data) = "#b".data := by
  refine ⟨(claim4_amended "a\nb").1 (by decide), ?_⟩
  have h := (claim4_amended "a\n#b").2 1 (by decide)
  rw [h]
  decide

/-- C9: the Document Renderer's paragraph emission.  For any text, when the
stripped text is wrapped in a single pair of underscores and longer than two
characters, the underscores are removed and the run is italic; otherwise the
run is the stripped text, not italic; in both cases the paragraph is
left-aligned.  Moreover, for a `[PARAGRAPH]` block line with non-blank
content arriving while no list, table or code block is open, the renderer
emits exactly that paragraph element. -/
theorem claim9_paragraph_italic :
    (∀ text : String,
      ((sstarts "_" (pyStrip text) = true ∧ sends "_" (pyStrip text) = true ∧
          (pyStrip text).length > 2) →
        add_clean_paragraph_to_docx text =
          .para ⟨((pyStrip text).data.drop 1).dropLast⟩ true "LEFT") ∧
      (¬ (sstarts "_" (pyStrip text) = true ∧ sends "_" (pyStrip text) = true ∧
          (pyStrip text).length > 2) →
        add_clean_paragraph_to_docx text = .para (pyStrip text) false "LEFT")) ∧
    (∀ (d : DocxSt) (line : String),
      d.inCode = false → d.currentListType = none → d.inTable = false →
      sstarts "[PARAGRAPH]" line = true → ¬ pyStrip (sdrop 11 line) = "" →
      stepDocx d line = (d, [add_clean_paragraph_to_docx (sdrop 11 line)])) := by
  constructor
  · intro text
    constructor
    · intro h
      rw [add_clean_paragraph_to_docx, if_pos h]
    · intro h
      rw [add_clean_paragraph_to_docx, if_neg h]
  · intro d line hc hcl ht hp hne
    have h1 : ¬ line = "[CODE_BLOCK_START]" := ne_of_sstarts hp (by decide)
    have h2 : ¬ line = "[CODE_BLOCK_END]" := ne_of_sstarts hp (by decide)
    have h4 : sstarts "[HEADING_" line = false := sstarts_excl hp (by decide) (by decide)
    have h5 : ¬ line = "[HORIZONTAL_RULE]" := ne_of_sstarts hp (by decide)
    have h6 : sstarts "[LIST_" line = false := sstarts_excl hp (by decide) (by decide)
    have h7 : sstarts "[BLOCKQUOTE]" line = false := sstarts_excl2 hp (by decide) (by decide)
    have h8 : sstarts "[TABLE_" line = false := sstarts_excl hp (by decide) (by decide)
    obtain ⟨clt, lvl, intab, rows, inc, cls⟩ := d
    simp only at hc hcl ht
    subst hc hcl ht
    simp only [stepDocx, h1, h2, h4, h5, h6, h7, h8, hp, hne, if_false, if_true,
      Bool.false_eq_true, ite_false, ite_true, not_false_eq_true]
    simp [flushTableDocx, hne]

/-- C9, witness: the concrete paragraph `_hello_` is unwrapped and italic,
`plain` stays plain, and the step function on a `[PARAGRAPH]_hello_` line in
the initial state emits exactly that element. -/
theorem claim9_witness :
    add_clean_paragraph_to_docx " _hello_ " = .para "hello" true "LEFT" ∧
    add_clean_paragraph_to_docx "plain" = .para "plain" false "LEFT" ∧
    stepDocx {} "[PARAGRAPH]_hello_" = ({}, [.para "hello" true "LEFT"]) := by
  refine ⟨?_, ?_, ?_⟩
  · have h := (claim9_paragraph_italic.1 " _hello_ ").1 (by decide)
    rw [h]
    decide
  · have h := (claim9_paragraph_italic.1 "plain").2 (by decide)
    rw [h]
    decide
  · have h := claim9_paragraph_italic.2 {} "[PARAGRAPH]_hello_" rfl rfl rfl (by decide) (by decide)
    rw [h]
    decide
lemma stepHtml_blank (s : HtmlSt) (hc : s.inCode = false) : stepHtml s "" = (s, []) := by
  obtain ⟨il, lvl, it, rows, inc, cls⟩ := s
  simp only at hc
  subst hc
  have e1 : ¬ ("" : String) = "[CODE_BLOCK_START]" := by decide
  have e2 : ¬ ("" : String) = "[CODE_BLOCK_END]" := by decide
  have e4 : sstarts "[HEADING_" "" = false := by decide
  have e5 : ¬ ("" : String) = "[HORIZONTAL_RULE]" := by decide
  have e6 : sstarts "[LIST_" "" = false := by decide
  have e7 : sstarts "[BLOCKQUOTE]" "" = false := by decide
  have e8 : sstarts "[TABLE_" "" = false := by decide
  have e9 : sstarts "[PARAGRAPH]" "" = false := by decide
  simp [stepHtml, e1, e2, e4, e5, e6, e7, e8, e9]

lemma stepDocx_blank (d : DocxSt) (hc : d.inCode = false) : stepDocx d "" = (d, []) := by
  obtain ⟨clt, lvl, it, rows, inc, cls⟩ := d
  simp only at hc
  subst hc
  have e1 : ¬ ("" : String) = "[CODE_BLOCK_START]" := by decide
  have e2 : ¬ ("" : String) = "[CODE_BLOCK_END]" := by decide
  have e4 : sstarts "[HEADING_" "" = false := by decide
  have e5 : ¬ ("" : String) = "[HORIZONTAL_RULE]" := by decide
  have e6 : sstarts "[LIST_" "" = false := by decide
  have e7 : sstarts "[BLOCKQUOTE]" "" = false := by decide
  have e8 : sstarts "[TABLE_" "" = false := by decide
  have e9 : sstarts "[PARAGRAPH]" "" = false := by decide
  simp [stepDocx, e1, e2, e4, e5, e6, e7, e8, e9]

lemma stepHtml_flushes (s : HtmlSt) (line : String) (hc : s.inCode = false)
    (hl : s.inList = none) (ht : s.inTable = true)
    (hb : is_nontable_block_line line = true) :
    (stepHtml s line).1.inTable = false ∧
    ∃ rest, (stepHtml s line).2 = finalize_html_table s.tableRows :: rest := by
  obtain ⟨il, lvl, it, rows, inc, cls⟩ := s
  simp only at hc hl ht
  subst hc hl ht
  rw [is_nontable_block_line] at hb
  simp only [Bool.or_eq_true] at hb
  rcases hb with ((((hb | hb) | hb) | hb) | hb)
  · have h1 : ¬ line = "[CODE_BLOCK_START]" := ne_of_sstarts hb (by decide)
    have h2 : ¬ line = "[CODE_BLOCK_END]" := ne_of_sstarts hb (by decide)
    simp only [stepHtml, h1, h2, hb, if_false, if_true, ite_false, ite_true,
      Bool.false_eq_true, not_false_eq_true, closeListHtml, flushTableHtml]
    rcases hpt : parse_tag_num "[HEADING_" line with _ | ⟨lvl2, text⟩ <;>
      simp [hpt]
  · have hb2 := of_decide_eq_true hb
    subst hb2
    have e1 : ¬ ("[HORIZONTAL_RULE]" : String) = "[CODE_BLOCK_START]" := by decide
    have e2 : ¬ ("[HORIZONTAL_RULE]" : String) = "[CODE_BLOCK_END]" := by decide
    have e4 : sstarts "[HEADING_" "[HORIZONTAL_RULE]" = false := by decide
    simp [stepHtml, e1, e2, e4, closeListHtml, flushTableHtml]
  · have h1 : ¬ line = "[CODE_BLOCK_START]" := ne_of_sstarts hb (by decide)
    have h2 : ¬ line = "[CODE_BLOCK_END]" := ne_of_sstarts hb (by decide)
    have h4 : sstarts "[HEADING_" line = false := sstarts_excl2 hb (by decide) (by decide)
    have h5 : ¬ line = "[HORIZONTAL_RULE]" := ne_of_sstarts hb (by decide)
    simp only [stepHtml, h1, h2, h4, h5, hb, if_false, if_true, ite_false, ite_true,
      Bool.false_eq_true, not_false_eq_true, flushTableHtml]
    rcases hpl : parse_list_line line with _ | ⟨numbered, lvl2, text⟩ <;>
      simp [hpl]
  · have h1 : ¬ line = "[CODE_BLOCK_START]" := ne_of_sstarts hb (by decide)
    have h2 : ¬ line = "[CODE_BLOCK_END]" := ne_of_sstarts hb (by decide)
    have h4 : sstarts "[HEADING_" line = false := sstarts_excl hb (by decide) (by decide)
    have h5 : ¬ line = "[HORIZONTAL_RULE]" := ne_of_sstarts hb (by decide)
    have h6 : sstarts "[LIST_" line = false := sstarts_excl hb (by decide) (by decide)
    simp [stepHtml, h1, h2, h4, h5, h6, hb, closeListHtml, flushTableHtml]
  · have h1 : ¬ line = "[CODE_BLOCK_START]" := ne_of_sstarts hb (by decide)
    have h2 : ¬ line = "[CODE_BLOCK_END]" := ne_of_sstarts hb (by decide)
    have h4 : sstarts "[HEADING_" line = false := sstarts_excl hb (by decide) (by decide)
    have h5 : ¬ line = "[HORIZONTAL_RULE]" := ne_of_sstarts hb (by decide)
    have h6 : sstarts "[LIST_" line = false := sstarts_excl hb (by decide) (by decide)
    have h7 : sstarts "[BLOCKQUOTE]" line = false := sstarts_excl2 hb (by decide) (by decide)
    have h8 : sstarts "[TABLE_" line = false := sstarts_excl hb (by decide) (by decide)
    simp [stepHtml, h1, h2, h4, h5, h6, h7, h8, hb, closeListHtml, flushTableHtml]

lemma stepDocx_flushes (d : DocxSt) (line : String) (hc : d.inCode = false)
    (hl : d.currentListType = none) (ht : d.inTable = true)
    (hb : is_nontable_block_line line = true) :
    (stepDocx d line).1.inTable = false ∧
    ∃ rest, (stepDocx d line).2 = finalize_docx_table d.tableRows ++ rest := by
  obtain ⟨clt, lvl, it, rows, inc, cls⟩ := d
  simp only at hc hl ht
  subst hc hl ht
  rw [is_nontable_block_line] at hb
  simp only [Bool.or_eq_true] at hb
  rcases hb with ((((hb | hb) | hb) | hb) | hb)
  · have h1 : ¬ line = "[CODE_BLOCK_START]" := ne_of_sstarts hb (by decide)
    have h2 : ¬ line = "[CODE_BLOCK_END]" := ne_of_sstarts hb (by decide)
    simp only [stepDocx, h1, h2, hb, if_false, if_true, ite_false, ite_true,
      Bool.false_eq_true, not_false_eq_true, flushTableDocx]
    rcases hpt : parse_tag_num "[HEADING_" line with _ | ⟨lvl2, text⟩ <;>
      simp [hpt]
  · have hb2 := of_decide_eq_true hb
    subst hb2
    have e1 : ¬ ("[HORIZONTAL_RULE]" : String) = "[CODE_BLOCK_START]" := by decide
    have e2 : ¬ ("[HORIZONTAL_RULE]" : String) = "[CODE_BLOCK_END]" := by decide
    have e4 : sstarts "[HEADING_" "[HORIZONTAL_RULE]" = false := by decide
    simp [stepDocx, e1, e2, e4, flushTableDocx]
  · have h1 : ¬ line = "[CODE_BLOCK_START]" := ne_of_sstarts hb (by decide)
    have h2 : ¬ line = "[CODE_BLOCK_END]" := ne_of_sstarts hb (by decide)
    have h4 : sstarts "[HEADING_" line = false := sstarts_excl2 hb (by decide) (by decide)
    have h5 : ¬ line = "[HORIZONTAL_RULE]" := ne_of_sstarts hb (by decide)
    simp only [stepDocx, h1, h2, h4, h5, hb, if_false, if_true, ite_false, ite_true,
      Bool.false_eq_true, not_false_eq_true, flushTableDocx]
    rcases hpl : parse_list_line line with _ | ⟨numbered, lvl2, text⟩ <;>
      simp [hpl]
  · have h1 : ¬ line = "[CODE_BLOCK_START]" := ne_of_sstarts hb (by decide)
    have h2 : ¬ line = "[CODE_BLOCK_END]" := ne_of_sstarts hb (by decide)
    have h4 : sstarts "[HEADING_" line = false := sstarts_excl hb (by decide) (by decide)
    have h5 : ¬ line = "[HORIZONTAL_RULE]" := ne_of_sstarts hb (by decide)
    have h6 : sstarts "[LIST_" line = false := sstarts_excl hb (by decide) (by decide)
    simp [stepDocx, h1, h2, h4, h5, h6, hb, flushTableDocx]
  · have h1 : ¬ line = "[CODE_BLOCK_START]" := ne_of_sstarts hb (by decide)
    have h2 : ¬ line = "[CODE_BLOCK_END]" := ne_of_sstarts hb (by decide)
    have h4 : sstarts "[HEADING_" line = false := sstarts_excl hb (by decide) (by decide)
    have h5 : ¬ line = "[HORIZONTAL_RULE]" := ne_of_sstarts hb (by decide)
    have h6 : sstarts "[LIST_" line = false := sstarts_excl hb (by decide) (by decide)
    have h7 : sstarts "[BLOCKQUOTE]" line = false := sstarts_excl2 hb (by decide) (by decide)
    have h8 : sstarts "[TABLE_" line = false := sstarts_excl hb (by decide) (by decide)
    simp [stepDocx, h1, h2, h4, h5, h6, h7, h8, hb, flushTableDocx]

/-- C1, amended: while table rows are accumulated, a following non-table
block line (heading, horizontal rule, list item, blockquote or paragraph)
makes both renderers flush the accumulated rows as one table unit before
handling the new block; a blank line, however, is skipped with no effect on
either renderer's state or output, so it does not close the table and table
rows separated only by a blank line merge into a single rendered table. -/
theorem claim1_amended (s : HtmlSt) (d : DocxSt) (line : String)
    (hsc : s.inCode = false) (hsl : s.inList = none) (hst : s.inTable = true)
    (hdc : d.inCode = false) (hdl : d.currentListType = none) (hdt : d.inTable = true) :
    (stepHtml s "" = (s, []) ∧ stepDocx d "" = (d, [])) ∧
    (is_nontable_block_line line = true →
      ((stepHtml s line).1.inTable = false ∧
        ∃ rest, (stepHtml s line).2 = finalize_html_table s.tableRows :: rest) ∧
      ((stepDocx d line).1.inTable = false ∧
        ∃ rest, (stepDocx d line).2 = finalize_docx_table d.tableRows ++ rest)) := by
  refine ⟨⟨stepHtml_blank s hsc, stepDocx_blank d hdc⟩, fun hb => ?_⟩
  exact ⟨stepHtml_flushes s line hsc hsl hst hb, stepDocx_flushes d line hdc hdl hdt hb⟩

/-- C1, witness for the amended theorem: in a state holding one accumulated
row, a blank line leaves both renderers untouched, while a paragraph line
flushes the row as one finalized table. -/
theorem claim1_witness :
    stepHtml { inTable := true, tableRows := [["A"]] } "" =
      ({ inTable := true, tableRows := [["A"]] }, []) ∧
    stepDocx { inTable := true, tableRows := [["A"]] } "" =
      ({ inTable := true, tableRows := [["A"]] }, []) ∧
    (stepHtml { inTable := true, tableRows := [["A"]] } "[PARAGRAPH]p").1.inTable = false ∧
    (stepDocx { inTable := true, tableRows := [["A"]] } "[PARAGRAPH]p").1.inTable = false := by
  have h := claim1_amended { inTable := true, tableRows := [["A"]] }
    { inTable := true, tableRows := [["A"]] } "[PARAGRAPH]p" rfl rfl rfl rfl rfl rfl
  exact ⟨h.1.1, h.1.2, (h.2 (by decide)).1.1, (h.2 (by decide)).2.1⟩

/-- C8: a table row whose raw content contains `---` is turned into a
`[TABLE_SEPARATOR]` block by the table-line processor; while a table run is
open (and no list container is open, as is the case between a table's header
and body) both renderers skip a `[TABLE_SEPARATOR]` line with no state change
and no output; end to end, the separator row of a markdown table never
appears as a rendered row in either renderer's output. -/
theorem claim8_separator_dropped :
    (∀ line : List Char, hasSub "---".data line = true →
      process_table_line line = "[TABLE_SEPARATOR]".data) ∧
    (∀ s : HtmlSt, s.inCode = false → s.inList = none →
      stepHtml s "[TABLE_SEPARATOR]" = (s, [])) ∧
    (∀ d : DocxSt, d.inCode = false → d.currentListType = none →
      stepDocx d "[TABLE_SEPARATOR]" = (d, [])) ∧
    convert_structured_content_to_html (parse_markdown_structure "| A |\n| --- |\n| 1 |") =
      "<table><thead><tr><th>A</th></tr></thead><tbody><tr><td>1</td></tr></tbody></table>" ∧
    add_structured_content_to_docx (parse_markdown_structure "| A |\n| --- |\n| 1 |") =
      [DocxElem.table [["A"], ["1"]]] := by
  refine ⟨?_, ?_, ?_, by decide, by decide⟩
  · intro line h
    simp [process_table_line, h]
  · intro s hc hl
    obtain ⟨il, lvl, it, rows, inc, cls⟩ := s
    simp only at hc hl
    subst hc hl
    have e1 : ¬ ("[TABLE_SEPARATOR]" : String) = "[CODE_BLOCK_START]" := by decide
    have e2 : ¬ ("[TABLE_SEPARATOR]" : String) = "[CODE_BLOCK_END]" := by decide
    have e4 : sstarts "[HEADING_" "[TABLE_SEPARATOR]" = false := by decide
    have e5 : ¬ ("[TABLE_SEPARATOR]" : String) = "[HORIZONTAL_RULE]" := by decide
    have e6 : sstarts "[LIST_" "[TABLE_SEPARATOR]" = false := by decide
    have e7 : sstarts "[BLOCKQUOTE]" "[TABLE_SEPARATOR]" = false := by decide
    have e8 : sstarts "[TABLE_" "[TABLE_SEPARATOR]" = true := by decide
    simp [stepHtml, e1, e2, e4, e5, e6, e7, e8, closeListHtml]
  · intro d hc hl
    obtain ⟨clt, lvl, it, rows, inc, cls⟩ := d
    simp only at hc hl
    subst hc hl
    have e1 : ¬ ("[TABLE_SEPARATOR]" : String) = "[CODE_BLOCK_START]" := by decide
    have e2 : ¬ ("[TABLE_SEPARATOR]" : String) = "[CODE_BLOCK_END]" := by decide
    have e4 : sstarts "[HEADING_" "[TABLE_SEPARATOR]" = false := by decide
    have e5 : ¬ ("[TABLE_SEPARATOR]" : String) = "[HORIZONTAL_RULE]" := by decide
    have e6 : sstarts "[LIST_" "[TABLE_SEPARATOR]" = false := by decide
    have e7 : sstarts "[BLOCKQUOTE]" "[TABLE_SEPARATOR]" = false := by decide
    have e8 : sstarts "[TABLE_" "[TABLE_SEPARATOR]" = true := by decide
    simp [stepDocx, e1, e2, e4, e5, e6, e7, e8]

/-- C8, witness: the concrete separator row `| --- |` becomes a separator
block, and a separator line between header and body is skipped by both step
functions. -/
theorem claim8_witness :
    process_table_line ("| --- |".data) = "[TABLE_SEPARATOR]".data ∧
    stepHtml { inTable := true, tableRows := [["A"]] } "[TABLE_SEPARATOR]" =
      ({ inTable := true, tableRows := [["A"]] }, []) ∧
    stepDocx { inTable := true, tableRows := [["A"]] } "[TABLE_SEPARATOR]" =
      ({ inTable := true, tableRows := [["A"]] }, []) :=
  ⟨claim8_separator_dropped.1 _ (by decide),
   claim8_separator_dropped.2.1 _ rfl rfl,
   claim8_separator_dropped.2.2.1 _ rfl rfl⟩
lemma sstarts_trans {p q line : String} (hpq : sstarts p q = true)
    (hq : sstarts q line = true) : sstarts p line = true := by
  rw [sstarts, List.isPrefixOf_iff_prefix] at *
  exact hpq.trans hq

lemma stepHtml_row (lvl : Int) (it : Bool) (acc : List (List String))
    (cls : List String) (r : String) :
    stepHtml ⟨none, lvl, it, acc, false, cls⟩ ("[TABLE_ROW]" ++ r) =
      (⟨none, lvl, true, (if it then acc else []) ++ [html_row_cells r], false, cls⟩, []) := by
  have hrow : sstarts "[TABLE_ROW]" ("[TABLE_ROW]" ++ r) = true := sstarts_self_append _ _
  have htab : sstarts "[TABLE_" ("[TABLE_ROW]" ++ r) = true :=
    sstarts_trans (by decide) hrow
  have h1 : ¬ "[TABLE_ROW]" ++ r = "[CODE_BLOCK_START]" := ne_of_sstarts hrow (by decide)
  have h2 : ¬ "[TABLE_ROW]" ++ r = "[CODE_BLOCK_END]" := ne_of_sstarts hrow (by decide)
  have h4 : sstarts "[HEADING_" ("[TABLE_ROW]" ++ r) = false :=
    sstarts_excl hrow (by decide) (by decide)
  have h5 : ¬ "[TABLE_ROW]" ++ r = "[HORIZONTAL_RULE]" := ne_of_sstarts hrow (by decide)
  have h6 : sstarts "[LIST_" ("[TABLE_ROW]" ++ r) = false :=
    sstarts_excl hrow (by decide) (by decide)
  have h7 : sstarts "[BLOCKQUOTE]" ("[TABLE_ROW]" ++ r) = false :=
    sstarts_excl2 hrow (by decide) (by decide)
  have hsep : ¬ "[TABLE_ROW]" ++ r = "[TABLE_SEPARATOR]" := ne_of_sstarts hrow (by decide)
  have hdrop : sdrop 11 ("[TABLE_ROW]" ++ r) = r := sdrop_self_append _ _ _ (by decide)
  simp only [stepHtml, h1, h2, h4, h5, h6, h7, hsep, hrow, htab, if_false, if_true,
    ite_false, ite_true, Bool.false_eq_true, not_false_eq_true, closeListHtml, hdrop]
  cases it <;> simp [html_row_cells]

lemma stepDocx_row (lvl : Int) (it : Bool) (acc : List (List String))
    (cls : List String) (r : String) :
    stepDocx ⟨none, lvl, it, acc, false, cls⟩ ("[TABLE_ROW]" ++ r) =
      (⟨none, lvl, true, (if it then acc else []) ++ [docx_row_cells r], false, cls⟩, []) := by
  have hrow : sstarts "[TABLE_ROW]" ("[TABLE_ROW]" ++ r) = true := sstarts_self_append _ _
  have htab : sstarts "[TABLE_" ("[TABLE_ROW]" ++ r) = true :=
    sstarts_trans (by decide) hrow
  have h1 : ¬ "[TABLE_ROW]" ++ r = "[CODE_BLOCK_START]" := ne_of_sstarts hrow (by decide)
  have h2 : ¬ "[TABLE_ROW]" ++ r = "[CODE_BLOCK_END]" := ne_of_sstarts hrow (by decide)
  have h4 : sstarts "[HEADING_" ("[TABLE_ROW]" ++ r) = false :=
    sstarts_excl hrow (by decide) (by decide)
  have h5 : ¬ "[TABLE_ROW]" ++ r = "[HORIZONTAL_RULE]" := ne_of_sstarts hrow (by decide)
  have h6 : sstarts "[LIST_" ("[TABLE_ROW]" ++ r) = false :=
    sstarts_excl hrow (by decide) (by decide)
  have h7 : sstarts "[BLOCKQUOTE]" ("[TABLE_ROW]" ++ r) = false :=
    sstarts_excl2 hrow (by decide) (by decide)
  have hsep : ¬ "[TABLE_ROW]" ++ r = "[TABLE_SEPARATOR]" := ne_of_sstarts hrow (by decide)
  have hdrop : sdrop 11 ("[TABLE_ROW]" ++ r) = r := sdrop_self_append _ _ _ (by decide)
  simp only [stepDocx, h1, h2, h4, h5, h6, h7, hsep, hrow, htab, if_false, if_true,
    ite_false, ite_true, Bool.false_eq_true, not_false_eq_true, hdrop]
  cases it <;> simp [docx_row_cells]

lemma render_html_table_run (rs : List String) (lvl : Int) (acc : List (List String))
    (cls : List String) :
    render_html_lines ⟨none, lvl, true, acc, false, cls⟩
        (rs.map (fun r => "[TABLE_ROW]" ++ r)) =
      [finalize_html_table (acc ++ rs.map html_row_cells)] := by
  induction rs generalizing acc with
  | nil => simp [render_html_lines, endHtml]
  | cons r rest ih =>
    simp only [List.map_cons, render_html_lines, stepHtml_row, if_true, ite_true]
    rw [ih (acc ++ [html_row_cells r])]
    simp

lemma render_docx_table_run (rs : List String) (lvl : Int) (acc : List (List String))
    (cls : List String) :
    render_docx_lines ⟨none, lvl, true, acc, false, cls⟩
        (rs.map (fun r => "[TABLE_ROW]" ++ r)) =
      finalize_docx_table (acc ++ rs.map docx_row_cells) := by
  induction rs generalizing acc with
  | nil => simp [render_docx_lines, endDocx]
  | cons r rest ih =>
    simp only [List.map_cons, render_docx_lines, stepDocx_row, if_true, ite_true]
    rw [ih (acc ++ [docx_row_cells r])]
    simp

/-- C7: end-of-stream closes every open container.  Concretely, the input
consisting solely of `| A | B |` then `| 1 | 2 |` with no trailing blank line
renders as exactly one table with header row A,B and body row 1,2 in both
renderers; in general any non-empty run of table-row lines with nothing
after it is flushed as exactly one table by both renderers; a still-open list
container is closed at end of stream; and an unterminated code fence is
force-closed and its buffered lines are emitted. -/
theorem claim7_flush (rs : List String) (h : rs ≠ []) :
    convert_structured_content_to_html (parse_markdown_structure "| A | B |\n| 1 | 2 |") =
      "<table><thead><tr><th>A</th><th>B</th></tr></thead><tbody><tr><td>1</td><td>2</td></tr></tbody></table>" ∧
    add_structured_content_to_docx (parse_markdown_structure "| A | B |\n| 1 | 2 |") =
      [DocxElem.table [["A", "B"], ["1", "2"]]] ∧
    render_html_lines {} (rs.map (fun r => "[TABLE_ROW]" ++ r)) =
      [finalize_html_table (rs.map html_row_cells)] ∧
    render_docx_lines {} (rs.map (fun r => "[TABLE_ROW]" ++ r)) =
      finalize_docx_table (rs.map docx_row_cells) ∧
    render_html_lines {} ["[LIST_BULLET_0]a"] = ["<ul>", "<li>a</li>", "</ul>"] ∧
    convert_structured_content_to_html (parse_markdown_structure "```\ncode") =
      "<pre><code>code</code></pre>" ∧
    add_structured_content_to_docx (parse_markdown_structure "```\ncode") =
      [DocxElem.code "code"] := by
  refine ⟨by decide, by decide, ?_, ?_, by decide, by decide, by decide⟩
  · rcases rs with _ | ⟨r, rest⟩
    · exact absurd rfl h
    · show render_html_lines ⟨none, -1, false, [], false, []⟩ _ = _
      simp only [List.map_cons, render_html_lines, stepHtml_row, if_false, ite_false,
        Bool.false_eq_true]
      rw [render_html_table_run rest (-1) ([] ++ [html_row_cells r]) []]
      simp
  · rcases rs with _ | ⟨r, rest⟩
    · exact absurd rfl h
    · show render_docx_lines ⟨none, -1, false, [], false, []⟩ _ = _
      simp only [List.map_cons, render_docx_lines, stepDocx_row, if_false, ite_false,
        Bool.false_eq_true]
      rw [render_docx_table_run rest (-1) ([] ++ [docx_row_cells r]) []]
      simp

/-- C7, witness: one still-open row `X|Y` at end of stream is flushed as one
table by both renderers. -/
theorem claim7_witness :
    render_html_lines {} (["X|Y"].map (fun r => "[TABLE_ROW]" ++ r)) =
      [finalize_html_table (["X|Y"].map html_row_cells)] ∧
    render_docx_lines {} (["X|Y"].map (fun r => "[TABLE_ROW]" ++ r)) =
      finalize_docx_table (["X|Y"].map docx_row_cells) ∧
    finalize_html_table (["X|Y"].map html_row_cells) =
      "<table><thead><tr><th>X</th><th>Y</th></tr></thead><tbody></tbody></table>" :=
  ⟨(claim7_flush ["X|Y"] (by decide)).2.2.1,
   (claim7_flush ["X|Y"] (by decide)).2.2.2.1,
   by decide⟩
lemma parse_code_accum (raws : List (List Char)) (rest : List (List Char))
    (buf : List (List Char))
    (hf : ∀ l ∈ raws, ("```".data.isPrefixOf (rstripL l)) = false) :
    parse_lines true buf (raws ++ rest) = parse_lines true (buf ++ raws.map rstripL) rest := by
  induction raws generalizing buf with
  | nil => simp
  | cons l tl ih =>
    have h := hf l (List.mem_cons_self l tl)
    simp only [List.cons_append, parse_lines, h, Bool.false_eq_true, if_false, ite_false,
      if_true, ite_true, eq_self_iff_true, List.append_eq]
    rw [ih (buf ++ [rstripL l]) (fun x hx => hf x (List.mem_cons_of_mem l hx))]
    simp

lemma render_html_code_accum (lines rest : List String) (il : Option String)
    (lvl : Int) (it : Bool) (rows : List (List String)) (cls : List String)
    (hm : ∀ l ∈ lines, ¬ l = "[CODE_BLOCK_START]" ∧ ¬ l = "[CODE_BLOCK_END]") :
    render_html_lines ⟨il, lvl, it, rows, true, cls⟩ (lines ++ rest) =
      render_html_lines ⟨il, lvl, it, rows, true, cls ++ lines⟩ rest := by
  induction lines generalizing cls with
  | nil => simp
  | cons l tl ih =>
    have h := hm l (List.mem_cons_self l tl)
    simp only [List.cons_append, render_html_lines, stepHtml, h.1, h.2, if_false,
      ite_false, if_true, ite_true, eq_self_iff_true, List.append_eq, List.nil_append]
    rw [ih (cls ++ [l]) (fun x hx => hm x (List.mem_cons_of_mem l hx))]
    simp

lemma render_docx_code_accum (lines rest : List String) (clt : Option String)
    (lvl : Int) (it : Bool) (rows : List (List String)) (cls : List String)
    (hm : ∀ l ∈ lines, ¬ l = "[CODE_BLOCK_START]" ∧ ¬ l = "[CODE_BLOCK_END]") :
    render_docx_lines ⟨clt, lvl, it, rows, true, cls⟩ (lines ++ rest) =
      render_docx_lines ⟨clt, lvl, it, rows, true, cls ++ lines⟩ rest := by
  induction lines generalizing cls with
  | nil => simp
  | cons l tl ih =>
    have h := hm l (List.mem_cons_self l tl)
    simp only [List.cons_append, render_docx_lines, stepDocx, h.1, h.2, if_false,
      ite_false, if_true, ite_true, eq_self_iff_true, List.append_eq, List.nil_append]
    rw [ih (cls ++ [l]) (fun x hx => hm x (List.mem_cons_of_mem l hx))]
    simp

/-- C3, amended: the interior lines of a fenced code block are carried
through parsing with only trailing whitespace stripped (the parser
right-strips every raw line, code interiors included); they are never passed
through the Inline Cleaner and are not escaped by the parser; the Page
Renderer applies its HTML escaping only at emission time, wrapping the
joined lines in `<pre><code>`, while the Document Renderer emits the joined
lines entirely unescaped; content that looks like headings or list markers
inside a fence is otherwise unmodified. -/
theorem claim3_amended (interior : List (List Char)) (hne : interior ≠ [])
    (hf : ∀ l ∈ interior, ("```".data.isPrefixOf (rstripL l)) = false)
    (hm : ∀ l ∈ interior, ¬ rstripL l = "[CODE_BLOCK_START]".data ∧
      ¬ rstripL l = "[CODE_BLOCK_END]".data) :
    parse_lines false [] ("```".data :: interior ++ ["```".data]) =
      "[CODE_BLOCK_START]".data :: interior.map rstripL ++ ["[CODE_BLOCK_END]".data] ∧
    render_html_lines {}
        ("[CODE_BLOCK_START]" :: interior.map (fun l => (⟨rstripL l⟩ : String)) ++
          ["[CODE_BLOCK_END]"]) =
      [htmlCodeBlock (interior.map (fun l => (⟨rstripL l⟩ : String)))] ∧
    render_docx_lines {}
        ("[CODE_BLOCK_START]" :: interior.map (fun l => (⟨rstripL l⟩ : String)) ++
          ["[CODE_BLOCK_END]"]) =
      [DocxElem.code (sjoinNL (interior.map (fun l => (⟨rstripL l⟩ : String))))] := by
  have hmapne : interior.map rstripL ≠ [] := by
    simpa using hne
  have hmapne2 : interior.map (fun l => (⟨rstripL l⟩ : String)) ≠ [] := by
    simpa using hne
  have hms : ∀ l ∈ interior.map (fun l => (⟨rstripL l⟩ : String)),
      ¬ l = "[CODE_BLOCK_START]" ∧ ¬ l = "[CODE_BLOCK_END]" := by
    intro l hl
    rcases List.mem_map.mp hl with ⟨x, hx, rfl⟩
    refine ⟨fun e => ?_, fun e => ?_⟩
    · exact (hm x hx).1 (congrArg String.data e)
    · exact (hm x hx).2 (congrArg String.data e)
  refine ⟨?_, ?_, ?_⟩
  · have hfence : rstripL ("```".data) = "```".data := by decide
    simp only [List.cons_append, parse_lines, hfence, List.append_eq]
    rw [if_pos (by decide : ("```".data.isPrefixOf ("```".data)) = true)]
    simp only [Bool.false_eq_true, if_false, ite_false]
    rw [parse_code_accum interior ["```".data] [] hf]
    simp only [List.nil_append, parse_lines, hfence]
    rw [if_pos (by decide : ("```".data.isPrefixOf ("```".data)) = true)]
    simp [hmapne, parse_lines]
  · have hcbs : ("[CODE_BLOCK_START]" : String) = "[CODE_BLOCK_START]" := rfl
    have hcbe1 : ¬ ("[CODE_BLOCK_END]" : String) = "[CODE_BLOCK_START]" := by decide
    show render_html_lines ⟨none, -1, false, [], false, []⟩ _ = _
    simp only [render_html_lines, stepHtml, hcbs, if_true, ite_true, eq_self_iff_true,
      List.nil_append, List.cons_append]
    simp only [List.append_eq]
    rw [render_html_code_accum _ _ _ _ _ _ _ hms]
    simp only [render_html_lines, stepHtml, hcbe1, if_false, ite_false, if_true,
      ite_true, eq_self_iff_true, List.nil_append]
    rw [if_pos hmapne2]
    simp [endHtml, render_html_lines]
  · have hcbs : ("[CODE_BLOCK_START]" : String) = "[CODE_BLOCK_START]" := rfl
    have hcbe1 : ¬ ("[CODE_BLOCK_END]" : String) = "[CODE_BLOCK_START]" := by decide
    show render_docx_lines ⟨none, -1, false, [], false, []⟩ _ = _
    simp only [render_docx_lines, stepDocx, hcbs, if_true, ite_true, eq_self_iff_true,
      List.nil_append, List.cons_append]
    simp only [List.append_eq]
    rw [render_docx_code_accum _ _ _ _ _ _ _ hms]
    simp only [render_docx_lines, stepDocx, hcbe1, if_false, ite_false, if_true,
      ite_true, eq_self_iff_true, List.nil_append]
    rw [if_pos hmapne2]
    simp [endDocx, render_docx_lines]
/-- C3, witness for the amended theorem: a fenced line that looks like a
heading and carries markdown syntax plus a trailing space is carried through
with only that trailing space removed, and both renderers emit it without
inline cleaning. -/
theorem claim3_witness :
    parse_lines false [] ("```".data :: ["# fake *md* ".data] ++ ["```".data]) =
      "[CODE_BLOCK_START]".data :: ["# fake *md* ".data].map rstripL ++
        ["[CODE_BLOCK_END]".data] ∧
    render_html_lines {}
        ("[CODE_BLOCK_START]" :: ["# fake *md* ".data].map (fun l => (⟨rstripL l⟩ : String)) ++
          ["[CODE_BLOCK_END]"]) =
      [htmlCodeBlock (["# fake *md* ".data].map (fun l => (⟨rstripL l⟩ : String)))] ∧
    render_docx_lines {}
        ("[CODE_BLOCK_START]" :: ["# fake *md* ".data].map (fun l => (⟨rstripL l⟩ : String)) ++
          ["[CODE_BLOCK_END]"]) =
      [DocxElem.code (sjoinNL (["# fake *md* ".data].map (fun l => (⟨rstripL l⟩ : String))))] :=
  claim3_amended ["# fake *md* ".data] (by decide) (by decide) (by decide)
lemma rstripL_prefixOf (l : List Char) : rstripL l <+: l := by
  rw [rstripL]
  have h := List.dropWhile_suffix (l := l.reverse) pyIsSpace
  rw [← List.reverse_prefix] at h
  simpa using h

lemma mem_of_mem_stripL {c : Char} {l : List Char} (h : c ∈ stripL l) : c ∈ l := by
  have h1 : List.Sublist (stripL l) l := by
    rw [stripL]
    exact ((rstripL_prefixOf (lstripL l)).sublist).trans (List.dropWhile_suffix pyIsSpace).sublist
  exact h1.mem h

lemma mem_collapse_ws {c : Char} : ∀ (f : Nat) (l : List Char), l.length ≤ f →
    c ∈ collapse_ws_go f l → c = ' ' ∨ pyIsSpace c = false := by
  intro f
  induction f with
  | zero =>
    intro l hl hc
    rw [List.length_eq_zero.mp (Nat.le_zero.mp hl)] at hc
    simp [collapse_ws_go] at hc
  | succ f ih =>
    intro l hl hc
    match l with
    | [] => simp [collapse_ws_go] at hc
    | a :: tl =>
      rw [collapse_ws_go] at hc
      by_cases ha : pyIsSpace a
      · rw [if_pos ha] at hc
        rcases List.mem_cons.mp hc with h | h
        · exact Or.inl h
        · exact ih _ (le_trans (List.dropWhile_sublist pyIsSpace).length_le
            (Nat.le_of_succ_le_succ hl)) h
      · rw [if_neg ha] at hc
        rcases List.mem_cons.mp hc with h | h
        · subst h
          exact Or.inr (by simpa using ha)
        · exact ih _ (Nat.le_of_succ_le_succ hl) h

lemma no_newline_cleanL (l : List Char) : '\n' ∉ cleanL l := by
  intro h
  rw [cleanL] at h
  have h1 := mem_of_mem_stripL h
  rcases mem_collapse_ws _ _ (le_refl _) h1 with h2 | h2
  · exact absurd h2 (by decide)
  · exact absurd h2 (by decide)

lemma mem_natToDecGo {c : Char} : ∀ (f n : Nat) (acc : List Char),
    c ∈ natToDecGo f n acc → c ∈ acc ∨ c ≠ '\n' := by
  intro f
  induction f with
  | zero => intro n acc h; exact Or.inl (by simpa [natToDecGo] using h)
  | succ f ih =>
    intro n acc h
    rw [natToDecGo] at h
    have hd : (Char.ofNat (48 + n % 10)) ≠ '\n' := by
      have h10 : n % 10 < 10 := Nat.mod_lt _ (by norm_num)
      interval_cases hnm : (n % 10) <;> decide
    by_cases hn : n < 10
    · rw [if_pos hn] at h
      rcases List.mem_cons.mp h with h | h
      · exact Or.inr (h ▸ hd)
      · exact Or.inl h
    · rw [if_neg hn] at h
      rcases ih _ _ h with h | h
      · rcases List.mem_cons.mp h with h | h
        · exact Or.inr (h ▸ hd)
        · exact Or.inl h
      · exact Or.inr h

lemma no_newline_natToDec (n : Nat) : '\n' ∉ natToDec n := by
  intro h
  rcases mem_natToDecGo _ _ _ h with h | h
  · simp at h
  · exact h rfl

lemma head?_of_prefix {l₁ l₂ : List Char} {c : Char} (h : l₁ <+: l₂)
    (hc : l₁.head? = some c) : l₂.head? = some c := by
  rcases h with ⟨t, rfl⟩
  match l₁, hc with
  | a :: tl, hc => simpa using hc

lemma head?_dropWhile_false {p : Char → Bool} : ∀ {l : List Char} {c : Char},
    (l.dropWhile p).head? = some c → p c = false := by
  intro l
  induction l with
  | nil => intro c h; simp at h
  | cons a tl ih =>
    intro c h
    rw [List.dropWhile_cons] at h
    by_cases ha : p a
    · rw [if_pos ha] at h
      exact ih h
    · rw [if_neg ha] at h
      simp at h
      subst h
      simpa using ha

lemma head_of_stripL {l : List Char} {c : Char} (h : (stripL l).head? = some c) :
    (l.dropWhile pyIsSpace).head? = some c ∧ pyIsSpace c = false := by
  have h1 : (l.dropWhile pyIsSpace).head? = some c := by
    have hpre : stripL l <+: l.dropWhile pyIsSpace := by
      rw [stripL, lstripL]
      exact rstripL_prefixOf _
    exact head?_of_prefix hpre h
  exact ⟨h1, head?_dropWhile_false h1⟩

lemma drop_takeWhile_length (p : Char → Bool) : ∀ (l : List Char),
    l.drop (l.takeWhile p).length = l.dropWhile p := by
  intro l
  induction l with
  | nil => rfl
  | cons a tl ih =>
    rw [List.takeWhile_cons, List.dropWhile_cons]
    by_cases ha : p a
    · simp [ha, ih]
    · simp [ha]
lemma mem_intersperse_cases {α : Type} {sep : α} : ∀ {xs : List α} {l : α},
    l ∈ xs.intersperse sep → l = sep ∨ l ∈ xs := by
  intro xs
  induction xs with
  | nil => intro l hl; simp at hl
  | cons x tl ih =>
    intro l hl
    cases tl with
    | nil =>
      right
      simpa using hl
    | cons y tl2 =>
      rw [List.intersperse_cons_cons] at hl
      rcases List.mem_cons.mp hl with rfl | hl
      · exact Or.inr (List.mem_cons_self _ _)
      · rcases List.mem_cons.mp hl with rfl | hl
        · exact Or.inl rfl
        · rcases ih hl with h | h
          · exact Or.inl h
          · exact Or.inr (List.mem_cons_of_mem _ h)

lemma mem_intercalate_cases {xs : List (List Char)} {sep : List Char} {c : Char}
    (h : c ∈ List.intercalate sep xs) : c ∈ sep ∨ ∃ x ∈ xs, c ∈ x := by
  rw [List.intercalate] at h
  rcases List.mem_flatten.mp h with ⟨l, hl, hc⟩
  rcases mem_intersperse_cases hl with rfl | hl2
  · exact Or.inl hc
  · exact Or.inr ⟨l, hl2, hc⟩
lemma isPrefixOf_append_self (p r : List Char) : p.isPrefixOf (p ++ r) = true := by
  rw [List.isPrefixOf_iff_prefix]
  exact List.prefix_append p r

lemma head_nonws_eq {l : List Char} {a c : Char} (hl : l.head? = some a)
    (hws : pyIsSpace a = false) (hdw : (l.dropWhile pyIsSpace).head? = some c) :
    a = c := by
  match l, hl with
  | b :: tl, hl =>
    have hb : b = a := by simpa using hl
    subst hb
    rw [List.dropWhile_cons, if_neg (by simp [hws])] at hdw
    simpa using hdw

/-- Classification of the per-line output of the total model: for a single
line (no embedded newline) outside a code block, a blank line yields the
empty entry (zero blocks), a table-dispatched row containing `---` yields
the `[TABLE_SEPARATOR]` entry, and every other non-blank line yields exactly
one block-marker line — nonempty, newline-free, and starting with one of the
block markers — falling through to `[PARAGRAPH]` when no other pattern
matches.  (This describes the total model only; the source can raise on a
line whose inline cleaning hits an empty star-bold match, see
`process_markdown_line_py` and `claim2_cleaner_crash`.) -/
lemma process_line_classification (line : String) (hnl : '\n' ∉ line.data) :
    (stripL line.data = [] → process_markdown_line line.data = []) ∧
    (¬ stripL line.data = [] →
      ((stripL line.data).head? = some '|' ∧ hasSub ['|'] line.data = true ∧
          hasSub "---".data line.data = true →
        process_markdown_line line.data = "[TABLE_SEPARATOR]".data) ∧
      (¬ ((stripL line.data).head? = some '|' ∧ hasSub ['|'] line.data = true ∧
          hasSub "---".data line.data = true) →
        is_block_marker (process_markdown_line line.data) = true ∧
        ¬ process_markdown_line line.data = [] ∧
        '\n' ∉ process_markdown_line line.data) ∧
      (¬ line.data.head? = some '#' → is_hrule line.data = false →
        list_match line.data = none → ¬ line.data.head? = some '>' →
        ¬ (hasSub ['|'] line.data = true ∧ (stripL line.data).head? = some '|') →
        "[PARAGRAPH]".data.isPrefixOf (process_markdown_line line.data) = true)) := by
  constructor
  · intro h
    rw [process_markdown_line, if_pos h]
  · intro hblank
    refine ⟨?_, ?_, ?_⟩
    · rintro ⟨hph, hpipe, hdash⟩
      obtain ⟨hdw, hnws⟩ := head_of_stripL hph
      have hhash : ¬ line.data.head? = some '#' := by
        intro hh
        have := head_nonws_eq hh (by decide) hdw
        exact absurd this (by decide)
      have hquote : ¬ line.data.head? = some '>' := by
        intro hh
        have := head_nonws_eq hh (by decide) hdw
        exact absurd this (by decide)
      have hmem : '|' ∈ stripL line.data := by
        match h : stripL line.data, hph with
        | a :: tl, hph =>
          have : a = '|' := by simpa using hph
          subst this
          exact List.mem_cons_self _ _
      have hhr : is_hrule line.data = false := by
        cases h3 : is_hrule line.data with
        | false => rfl
        | true =>
          exfalso
          rw [is_hrule] at h3
          have h4 := of_decide_eq_true h3
          have h5 := List.all_eq_true.mp h4.2 '|' hmem
          exact absurd h5 (by decide)
      have hrest : line.data.dropWhile pyIsSpace =
          '|' :: (line.data.dropWhile pyIsSpace).tail := by
        match h : line.data.dropWhile pyIsSpace, hdw with
        | a :: tl, hdw =>
          have : a = '|' := by simpa using hdw
          subst this
          rfl
      have hlist : list_match line.data = none := by
        rw [list_match]
        simp only [drop_takeWhile_length]
        rw [hrest]
        simp only [List.head?_cons, List.takeWhile_cons]
        rw [if_neg (by decide : ¬ Char.isDigit '|' = true)]
        simp
      rw [process_markdown_line, if_neg hblank, if_neg hhash]
      rw [if_neg (by simp [hhr] : ¬ is_hrule line.data = true)]
      rw [hlist]
      simp only
      rw [if_neg hquote, if_pos ⟨hpipe, hph⟩]
      rw [process_table_line, if_pos hdash]
    · intro hnotsep
      rw [process_markdown_line, if_neg hblank]
      by_cases hhash : line.data.head? = some '#'
      · rw [if_pos hhash]
        refine ⟨?_, by simp, ?_⟩
        · rw [is_block_marker]
          have hp : "[HEADING_".data.isPrefixOf
              ("[HEADING_".data ++ natToDec (line.data.takeWhile (fun c => c = '#')).length ++
                [']'] ++ cleanL (stripL ((line.data.drop
                  (line.data.takeWhile (fun c => c = '#')).length).dropWhile pyIsSpace))) = true := by
            rw [List.append_assoc, List.append_assoc]
            exact isPrefixOf_append_self _ _
          simp [hp]
        · intro hmem
          rcases List.mem_append.mp hmem with hmem | hmem
          · rcases List.mem_append.mp hmem with hmem | hmem
            · rcases List.mem_append.mp hmem with hmem | hmem
              · exact absurd hmem (by decide)
              · exact no_newline_natToDec _ hmem
            · exact absurd hmem (by decide)
          · exact no_newline_cleanL _ hmem
      · rw [if_neg hhash]
        by_cases hhr2 : is_hrule line.data = true
        · rw [if_pos hhr2]
          exact ⟨by decide, by decide, by decide⟩
        · rw [if_neg hhr2]
          cases hlm : list_match line.data with
          | some t =>
            obtain ⟨indentLen, numbered, content⟩ := t
            simp only
            refine ⟨?_, ?_, ?_⟩
            · rw [is_block_marker]
              have hp : "[LIST_".data.isPrefixOf
                  ("[LIST_".data ++ (if numbered then "NUMBERED".data else "BULLET".data) ++
                    ['_'] ++ natToDec (indentLen / 2) ++ [']'] ++ cleanL content) = true := by
                rw [List.append_assoc, List.append_assoc, List.append_assoc, List.append_assoc]
                exact isPrefixOf_append_self _ _
              simp [hp]
            · cases numbered <;> simp
            · intro hmem
              rcases List.mem_append.mp hmem with hmem | hmem
              · rcases List.mem_append.mp hmem with hmem | hmem
                · rcases List.mem_append.mp hmem with hmem | hmem
                  · rcases List.mem_append.mp hmem with hmem | hmem
                    · rcases List.mem_append.mp hmem with hmem | hmem
                      · exact absurd hmem (by decide)
                      · cases numbered <;> exact absurd hmem (by decide)
                    · exact absurd hmem (by decide)
                  · exact no_newline_natToDec _ hmem
                · exact absurd hmem (by decide)
              · exact no_newline_cleanL _ hmem
          | none =>
            simp only
            by_cases hq : line.data.head? = some '>'
            · rw [if_pos hq]
              refine ⟨?_, by simp, ?_⟩
              · rw [is_block_marker]
                have hp : "[BLOCKQUOTE]".data.isPrefixOf
                    ("[BLOCKQUOTE]".data ++ cleanL ((line.data.drop 1).dropWhile pyIsSpace)) = true :=
                  isPrefixOf_append_self _ _
                simp [hp]
              · intro hmem
                rcases List.mem_append.mp hmem with hmem | hmem
                · exact absurd hmem (by decide)
                · exact no_newline_cleanL _ hmem
            · rw [if_neg hq]
              by_cases htab : hasSub ['|'] line.data = true ∧ (stripL line.data).head? = some '|'
              · rw [if_pos htab]
                have hdash : hasSub "---".data line.data = false := by
                  cases h3 : hasSub "---".data line.data with
                  | false => rfl
                  | true => exact absurd ⟨htab.2, htab.1, h3⟩ hnotsep
                rw [process_table_line]
                rw [if_neg (by simp [hdash] : ¬ hasSub "---".data line.data = true)]
                refine ⟨?_, by simp, ?_⟩
                · simp [is_block_marker, isPrefixOf_append_self]
                · intro hmem
                  rcases List.mem_append.mp hmem with hmem | hmem
                  · exact absurd hmem (by decide)
                  · rcases mem_intercalate_cases hmem with hmem | ⟨x, hx, hmem⟩
                    · exact absurd hmem (by decide)
                    · rcases List.mem_map.mp hx with ⟨y, _, rfl⟩
                      exact no_newline_cleanL _ hmem
              · rw [if_neg htab]
                refine ⟨?_, by simp, ?_⟩
                · rw [is_block_marker]
                  have hp : "[PARAGRAPH]".data.isPrefixOf
                      ("[PARAGRAPH]".data ++ cleanL line.data) = true :=
                    isPrefixOf_append_self _ _
                  simp [hp]
                · intro hmem
                  rcases List.mem_append.mp hmem with hmem | hmem
                  · exact absurd hmem (by decide)
                  · exact no_newline_cleanL _ hmem
    · intro hhash hhr hlm hq htab
      rw [process_markdown_line, if_neg hblank, if_neg hhash]
      rw [if_neg (by simp [hhr] : ¬ is_hrule line.data = true)]
      rw [hlm]
      simp only
      rw [if_neg hq, if_neg htab]
      exact isPrefixOf_append_self _ _

/-- The fallible bold pass agrees with the total one whenever it does not
raise. -/
lemma sub_bold_go_py_agrees : ∀ (f : Nat) (l r : List Char),
    sub_bold_go_py f l = some r → sub_bold_go f l = r := by
  intro f
  induction f with
  | zero =>
    intro l r h
    rw [sub_bold_go_py] at h
    rw [sub_bold_go]
    exact Option.some.inj h
  | succ f ih =>
    intro l r h
    cases l with
    | nil =>
      rw [sub_bold_go_py] at h
      rw [sub_bold_go]
      exact Option.some.inj h
    | cons c tl =>
      rw [sub_bold_go_py] at h
      by_cases h1 : c = '*' ∧ tl.head? = some '*'
      · rw [if_pos h1] at h
        obtain ⟨hc, hh⟩ := h1
        subst hc
        cases hdd : findDD '*' tl.tail with
        | some p =>
          obtain ⟨content, rest⟩ := p
          rw [hdd] at h
          simp only at h
          by_cases hce : content = []
          · rw [if_pos hce] at h
            exact Option.noConfusion h
          · rw [if_neg hce] at h
            obtain ⟨r', hr', hrr⟩ := Option.map_eq_some'.mp h
            rw [sub_bold_go, if_pos (Or.inl ⟨rfl, hh⟩), hdd]
            simp only
            rw [ih rest r' hr']
            exact hrr
        | none =>
          rw [hdd] at h
          simp only at h
          obtain ⟨r', hr', hrr⟩ := Option.map_eq_some'.mp h
          rw [sub_bold_go, if_pos (Or.inl ⟨rfl, hh⟩), hdd]
          simp only
          rw [ih tl r' hr']
          exact hrr
      · rw [if_neg h1] at h
        by_cases h2 : c = '_' ∧ tl.head? = some '_'
        · rw [if_pos h2] at h
          obtain ⟨hc, hh⟩ := h2
          subst hc
          cases hdd : findDD '_' tl.tail with
          | some p =>
            obtain ⟨content, rest⟩ := p
            rw [hdd] at h
            simp only at h
            obtain ⟨r', hr', hrr⟩ := Option.map_eq_some'.mp h
            rw [sub_bold_go, if_pos (Or.inr ⟨rfl, hh⟩), hdd]
            simp only
            rw [ih rest r' hr']
            exact hrr
          | none =>
            rw [hdd] at h
            simp only at h
            obtain ⟨r', hr', hrr⟩ := Option.map_eq_some'.mp h
            rw [sub_bold_go, if_pos (Or.inr ⟨rfl, hh⟩), hdd]
            simp only
            rw [ih tl r' hr']
            exact hrr
        · rw [if_neg h2] at h
          obtain ⟨r', hr', hrr⟩ := Option.map_eq_some'.mp h
          rw [sub_bold_go, if_neg (fun hor => hor.elim h1 h2)]
          rw [ih tl r' hr']
          exact hrr

/-- The fallible cleaner agrees with the total one whenever it does not
raise. -/
lemma cleanL_py_agrees (l r : List Char) (h : cleanL_py l = some r) :
    cleanL l = r := by
  rw [cleanL_py] at h
  obtain ⟨l1, hl1, hrest⟩ := Option.map_eq_some'.mp h
  simp only [cleanL]
  rw [sub_bold_go_py_agrees l.length l l1 hl1]
  exact hrest

/-- The fallible cell-cleaning comprehension agrees with the total map
whenever no cell raises. -/
lemma mapOptM_cleanL_agrees : ∀ (cells cs : List (List Char)),
    mapOptM cleanL_py cells = some cs → cells.map cleanL = cs := by
  intro cells
  induction cells with
  | nil =>
    intro cs h
    rw [mapOptM] at h
    rw [List.map_nil]
    exact Option.some.inj h
  | cons x xs ih =>
    intro cs h
    rw [mapOptM] at h
    cases hx : cleanL_py x with
    | none =>
      rw [hx] at h
      exact Option.noConfusion h
    | some y =>
      rw [hx] at h
      simp only at h
      obtain ⟨ys, hys, hcs⟩ := Option.map_eq_some'.mp h
      rw [List.map_cons, cleanL_py_agrees x y hx, ih ys hys]
      exact hcs

/-- The fallible table-line processor agrees with the total one whenever it
does not raise. -/
lemma process_table_line_py_agrees (line r : List Char)
    (h : process_table_line_py line = some r) : process_table_line line = r := by
  simp only [process_table_line_py] at h
  simp only [process_table_line]
  by_cases hd : hasSub "---".data line = true
  · rw [if_pos hd] at h
    rw [if_pos hd]
    exact Option.some.inj h
  · rw [if_neg hd] at h
    rw [if_neg hd]
    obtain ⟨cs, hcs, hr⟩ := Option.map_eq_some'.mp h
    rw [mapOptM_cleanL_agrees _ cs hcs]
    exact hr

/-- The fallible line processor agrees with the total one whenever it does
not raise. -/
lemma process_markdown_line_py_agrees (line r : List Char)
    (h : process_markdown_line_py line = some r) : process_markdown_line line = r := by
  simp only [process_markdown_line_py] at h
  simp only [process_markdown_line]
  by_cases hb : stripL line = []
  · rw [if_pos hb] at h
    rw [if_pos hb]
    exact Option.some.inj h
  · rw [if_neg hb] at h
    rw [if_neg hb]
    by_cases hh : line.head? = some '#'
    · rw [if_pos hh] at h
      rw [if_pos hh]
      obtain ⟨ct, hct, hr⟩ := Option.map_eq_some'.mp h
      rw [cleanL_py_agrees _ ct hct]
      exact hr
    · rw [if_neg hh] at h
      rw [if_neg hh]
      by_cases hhr : is_hrule line = true
      · rw [if_pos hhr] at h
        rw [if_pos hhr]
        exact Option.some.inj h
      · rw [if_neg hhr] at h
        rw [if_neg hhr]
        cases hlm : list_match line with
        | some t =>
          obtain ⟨indentLen, numbered, content⟩ := t
          rw [hlm] at h
          simp only at h
          obtain ⟨cc, hcc, hr⟩ := Option.map_eq_some'.mp h
          simp only
          rw [cleanL_py_agrees _ cc hcc]
          exact hr
        | none =>
          rw [hlm] at h
          simp only at h
          simp only
          by_cases hq : line.head? = some '>'
          · rw [if_pos hq] at h
            rw [if_pos hq]
            obtain ⟨cq, hcq, hr⟩ := Option.map_eq_some'.mp h
            rw [cleanL_py_agrees _ cq hcq]
            exact hr
          · rw [if_neg hq] at h
            rw [if_neg hq]
            by_cases ht : hasSub ['|'] line = true ∧ (stripL line).head? = some '|'
            · rw [if_pos ht] at h
              rw [if_pos ht]
              exact process_table_line_py_agrees line r h
            · rw [if_neg ht] at h
              rw [if_neg ht]
              obtain ⟨cl, hcl, hr⟩ := Option.map_eq_some'.mp h
              rw [cleanL_py_agrees _ cl hcl]
              exact hr

/-- The fallible parse loop agrees with the total one whenever no line
raises. -/
lemma parse_lines_py_agrees : ∀ (lines : List (List Char)) (inCode : Bool)
    (buf out : List (List Char)),
    parse_lines_py inCode buf lines = some out → parse_lines inCode buf lines = out := by
  intro lines
  induction lines with
  | nil =>
    intro inCode buf out h
    rw [parse_lines_py] at h
    rw [parse_lines]
    exact Option.some.inj h
  | cons raw rest ih =>
    intro inCode buf out h
    simp only [parse_lines_py] at h
    simp only [parse_lines]
    by_cases hf : ("```".data).isPrefixOf (rstripL raw) = true
    · rw [if_pos hf] at h
      rw [if_pos hf]
      cases inCode with
      | true =>
        rw [if_pos rfl] at h
        rw [if_pos rfl]
        obtain ⟨o, ho, hout⟩ := Option.map_eq_some'.mp h
        rw [ih false [] o ho]
        exact hout
      | false =>
        rw [if_neg (by simp)] at h
        rw [if_neg (by simp)]
        exact ih true buf out h
    · rw [if_neg hf] at h
      rw [if_neg hf]
      cases inCode with
      | true =>
        rw [if_pos rfl] at h
        rw [if_pos rfl]
        exact ih true (buf ++ [rstripL raw]) out h
      | false =>
        rw [if_neg (by simp)] at h
        rw [if_neg (by simp)]
        cases hp : process_markdown_line_py (rstripL raw) with
        | none =>
          rw [hp] at h
          exact Option.noConfusion h
        | some p =>
          rw [hp] at h
          simp only at h
          obtain ⟨o, ho, hout⟩ := Option.map_eq_some'.mp h
          rw [process_markdown_line_py_agrees _ p hp, ih false [] o ho]
          exact hout

/-- The fallible parser agrees with the total one whenever it does not
raise. -/
lemma parse_markdown_structure_py_agrees (s out : String)
    (h : parse_markdown_structure_py s = some out) :
    parse_markdown_structure s = out := by
  rw [parse_markdown_structure_py] at h
  obtain ⟨ls, hls, hout⟩ := Option.map_eq_some'.mp h
  rw [parse_markdown_structure, parse_lines_py_agrees _ _ _ _ hls]
  exact hout

/-- C2: the claim (matching the spec's no-failure contract, §4.3 and §7)
says the Structural Parser terminates and never raises, but the code can
raise: on a line containing an empty star-bold match (`****`) outside a
code block, the dispatched branch calls `_clean_inline_markdown`, whose
`replace_bold` computes `content = match.group(1) or match.group(2)`; the
empty star-bold match makes `group(1)` the falsy empty string, so `content`
becomes `group(2) = None` and `len(content)` raises `TypeError`.  The
fallible model returns `none` exactly there: the paragraph line `a ****`
and the heading `# ****` both abort the parse, the empty underscore-bold
match is harmless, and on a raise-free document the fallible parser agrees
with the total model used elsewhere in this development. -/
theorem claim2_cleaner_crash :
    cleanL_py ("a ****".data) = none ∧
    process_markdown_line_py ("a ****".data) = none ∧
    parse_markdown_structure_py "a ****" = none ∧
    parse_markdown_structure_py "# ****" = none ∧
    cleanL_py ("____".data) = some [] ∧
    parse_markdown_structure_py "# Title\nhello **world**\n\n| A |" =
      some (parse_markdown_structure "# Title\nhello **world**\n\n| A |") := by
  decide
lemma sub_bold_noop : ∀ (f : Nat) (l : List Char),
    (∀ c ∈ l, ¬ c = '*' ∧ ¬ c = '_') → sub_bold_go f l = l := by
  intro f
  induction f with
  | zero => intro l _; rfl
  | succ f ih =>
    intro l h
    match l with
    | [] => rfl
    | c :: tl =>
      have hc := h c (List.mem_cons_self _ _)
      rw [sub_bold_go, if_neg (by simp [hc.1, hc.2])]
      rw [ih tl (fun x hx => h x (List.mem_cons_of_mem _ hx))]

lemma sub_italic_noop : ∀ (f : Nat) (p : Option Char) (l : List Char),
    (∀ c ∈ l, ¬ c = '*' ∧ ¬ c = '_') → sub_italic_go f p l = l := by
  intro f
  induction f with
  | zero => intro p l _; rfl
  | succ f ih =>
    intro p l h
    match l with
    | [] => rfl
    | c :: tl =>
      have hc := h c (List.mem_cons_self _ _)
      have hcond : ¬ ((c = '*' ∨ c = '_') ∧ ¬ p = some c) := by simp [hc.1, hc.2]
      rw [sub_italic_go.eq_def]
      simp only [hcond, if_false, ite_false]
      rw [ih _ tl (fun x hx => h x (List.mem_cons_of_mem _ hx))]

lemma sub_strike_noop : ∀ (f : Nat) (l : List Char),
    (∀ c ∈ l, ¬ c = '~') → sub_strike_go f l = l := by
  intro f
  induction f with
  | zero => intro l _; rfl
  | succ f ih =>
    intro l h
    match l with
    | [] => rfl
    | c :: tl =>
      have hc := h c (List.mem_cons_self _ _)
      rw [sub_strike_go, if_neg (by simp [hc])]
      rw [ih tl (fun x hx => h x (List.mem_cons_of_mem _ hx))]

lemma sub_code_noop : ∀ (f : Nat) (l : List Char),
    (∀ c ∈ l, ¬ c = backtick) → sub_code_go f l = l := by
  intro f
  induction f with
  | zero => intro l _; rfl
  | succ f ih =>
    intro l h
    match l with
    | [] => rfl
    | c :: tl =>
      have hc := h c (List.mem_cons_self _ _)
      rw [sub_code_go, if_neg (by simp [hc])]
      rw [ih tl (fun x hx => h x (List.mem_cons_of_mem _ hx))]

lemma sub_links_noop : ∀ (f : Nat) (l : List Char),
    (∀ c ∈ l, ¬ c = '[') → sub_links_go f l = l := by
  intro f
  induction f with
  | zero => intro l _; rfl
  | succ f ih =>
    intro l h
    match l with
    | [] => rfl
    | c :: tl =>
      have hc := h c (List.mem_cons_self _ _)
      rw [sub_links_go, if_neg (by simp [hc])]
      rw [ih tl (fun x hx => h x (List.mem_cons_of_mem _ hx))]

lemma remove_angles_noop (l : List Char)
    (h : ∀ c ∈ l, ¬ c = '<' ∧ ¬ c = '>') : remove_angles l = l := by
  rw [remove_angles, List.filter_eq_self]
  intro a ha
  simp [(h a ha).1, (h a ha).2]

lemma unescape_noop (t : Char) : ∀ (l : List Char),
    (∀ c ∈ l, ¬ c = t) → unescape_char t l = l := by
  intro l
  induction l with
  | nil => intro _; rfl
  | cons c tl ih =>
    intro h
    match tl with
    | [] => rfl
    | d :: tl2 =>
      have hd := h d (List.mem_cons_of_mem _ (List.mem_cons_self _ _))
      rw [unescape_char, if_neg (by simp [hd])]
      rw [ih (fun x hx => h x (List.mem_cons_of_mem _ hx))]
lemma collapse_head_of_head_nonws : ∀ (f : Nat) (y : List Char) {c : Char},
    y.length ≤ f → (∀ a, y.head? = some a → pyIsSpace a = false) →
    (collapse_ws_go f y).head? = some c → pyIsSpace c = false := by
  intro f y c hf hy hc
  match y with
  | [] =>
    cases f <;> simp [collapse_ws_go] at hc
  | a :: tl =>
    have ha := hy a rfl
    match f, hf with
    | 0, hf => simp at hf
    | f + 1, hf =>
      rw [collapse_ws_go, if_neg (by simp [ha])] at hc
      have : a = c := by simpa using hc
      exact this ▸ ha

lemma collapse_chain : ∀ (f : Nat) (l : List Char), l.length ≤ f →
    (collapse_ws_go f l).Chain' (fun a b => ¬ (pyIsSpace a = true ∧ pyIsSpace b = true)) := by
  intro f
  induction f with
  | zero =>
    intro l hl
    rw [List.length_eq_zero.mp (Nat.le_zero.mp hl)]
    simp [collapse_ws_go]
  | succ f ih =>
    intro l hl
    match l with
    | [] => simp [collapse_ws_go]
    | c :: tl =>
      rw [collapse_ws_go]
      by_cases hc : pyIsSpace c
      · rw [if_pos hc]
        rw [List.chain'_cons']
        constructor
        · intro b hb
          have hb' : (collapse_ws_go f (tl.dropWhile pyIsSpace)).head? = some b :=
            Option.mem_def.mp hb
          have hnb : pyIsSpace b = false :=
            collapse_head_of_head_nonws f _
              (le_trans (List.dropWhile_sublist _).length_le (Nat.le_of_succ_le_succ hl))
              (fun a ha => head?_dropWhile_false ha) hb'
          simp [hnb]
        · exact ih _ (le_trans (List.dropWhile_sublist _).length_le (Nat.le_of_succ_le_succ hl))
      · rw [if_neg hc]
        rw [List.chain'_cons']
        constructor
        · intro b _
          simp [hc]
        · exact ih _ (Nat.le_of_succ_le_succ hl)

lemma collapse_eq_self : ∀ (f : Nat) (l : List Char), l.length ≤ f →
    (∀ c ∈ l, pyIsSpace c = true → c = ' ') →
    l.Chain' (fun a b => ¬ (pyIsSpace a = true ∧ pyIsSpace b = true)) →
    collapse_ws_go f l = l := by
  intro f
  induction f with
  | zero =>
    intro l hl _ _
    rw [List.length_eq_zero.mp (Nat.le_zero.mp hl)]
    rfl
  | succ f ih =>
    intro l hl hsp hch
    match l with
    | [] => rfl
    | c :: tl =>
      rw [collapse_ws_go]
      by_cases hc : pyIsSpace c
      · rw [if_pos hc]
        have hcsp : c = ' ' := hsp c (List.mem_cons_self _ _) hc
        have hdw : tl.dropWhile pyIsSpace = tl := by
          match tl with
          | [] => rfl
          | d :: tl2 =>
            rw [List.dropWhile_cons, if_neg ?_]
            have hrel := (List.chain'_cons'.mp hch).1 d rfl
            simp only [hc, true_and] at hrel
            simp [hrel]
        rw [hdw]
        rw [ih tl (Nat.le_of_succ_le_succ hl)
          (fun x hx => hsp x (List.mem_cons_of_mem _ hx)) hch.tail]
        rw [hcsp]
      · rw [if_neg hc]
        rw [ih tl (Nat.le_of_succ_le_succ hl)
          (fun x hx => hsp x (List.mem_cons_of_mem _ hx)) hch.tail]

lemma chain_stripL {R : Char → Char → Prop} {l : List Char} (h : l.Chain' R) :
    (stripL l).Chain' R := by
  have h1 : (lstripL l).Chain' R := h.suffix (List.dropWhile_suffix _)
  exact h1.prefix (rstripL_prefixOf _)

lemma getLast?_stripL {y : List Char} {c : Char}
    (h : (stripL y).getLast? = some c) : pyIsSpace c = false := by
  rw [stripL, rstripL, List.getLast?_reverse] at h
  exact head?_dropWhile_false h

lemma cleanL_shape (l : List Char) :
    ∃ z, cleanL l = stripL (collapse_ws_go z.length z) := ⟨_, rfl⟩

lemma stripL_eq_self {l : List Char}
    (hh : ∀ c, l.head? = some c → pyIsSpace c = false)
    (hl : ∀ c, l.getLast? = some c → pyIsSpace c = false) : stripL l = l := by
  rw [stripL]
  have h1 : lstripL l = l := by
    rw [lstripL]
    match l with
    | [] => rfl
    | a :: tl => rw [List.dropWhile_cons, if_neg (by simp [hh a rfl])]
  rw [h1, rstripL]
  have h2 : l.reverse.dropWhile pyIsSpace = l.reverse := by
    match hrev : l.reverse with
    | [] => rfl
    | a :: tl =>
      rw [List.dropWhile_cons, if_neg ?_]
      have ha : l.getLast? = some a := by
        rw [← List.head?_reverse, hrev]
        rfl
      simp [hl a ha]
  rw [h2, List.reverse_reverse]
/-- C5: idempotence of inline cleaning on already-clean text.  When the
output of one cleaning pass contains no markdown delimiter characters
(asterisk, underscore, tilde, backtick, square brackets, angle brackets —
the characters that can trigger one of the cleaner's substitution passes),
a second pass returns it unchanged: no substitution re-triggers, and the
whitespace collapse and strip are idempotent because a pass always leaves
single interior spaces and no leading or trailing whitespace. -/
theorem claim5_clean_idempotent (x : List Char)
    (h : no_markdown_delims (cleanL x) = true) :
    cleanL (cleanL x) = cleanL x := by
  rw [no_markdown_delims] at h
  obtain ⟨z0, hz0⟩ := cleanL_shape x
  obtain ⟨y, hy⟩ : ∃ y, cleanL x = y := ⟨_, rfl⟩
  rw [hy] at h hz0 ⊢
  have hall := List.all_eq_true.mp h
  have hprops : ∀ c ∈ y,
      ¬ (c = '*' ∨ c = '_' ∨ c = '~' ∨ c = backtick ∨ c = '[' ∨ c = ']' ∨
        c = '<' ∨ c = '>') :=
    fun c hc => of_decide_eq_true (hall c hc)
  obtain ⟨z, hz⟩ : ∃ z, y = stripL (collapse_ws_go z.length z) := ⟨z0, hz0⟩
  have hallSp : ∀ c ∈ y, pyIsSpace c = true → c = ' ' := by
    intro c hc hw
    rw [hz] at hc
    rcases mem_collapse_ws _ _ (le_refl _) (mem_of_mem_stripL hc) with h2 | h2
    · exact h2
    · rw [h2] at hw
      cases hw
  have hchain : y.Chain' (fun a b => ¬ (pyIsSpace a = true ∧ pyIsSpace b = true)) := by
    rw [hz]
    exact chain_stripL (collapse_chain _ _ (le_refl _))
  have hhead : ∀ c, y.head? = some c → pyIsSpace c = false := by
    intro c hc
    rw [hz] at hc
    exact (head_of_stripL hc).2
  have hlast : ∀ c, y.getLast? = some c → pyIsSpace c = false := by
    intro c hc
    rw [hz] at hc
    exact getLast?_stripL hc
  have pstar : ∀ c ∈ y, ¬ c = '*' := fun c hc e => hprops c hc (Or.inl e)
  have punder : ∀ c ∈ y, ¬ c = '_' := fun c hc e => hprops c hc (Or.inr (Or.inl e))
  have ptilde : ∀ c ∈ y, ¬ c = '~' := fun c hc e => hprops c hc (Or.inr (Or.inr (Or.inl e)))
  have ptick : ∀ c ∈ y, ¬ c = backtick :=
    fun c hc e => hprops c hc (Or.inr (Or.inr (Or.inr (Or.inl e))))
  have pbrack : ∀ c ∈ y, ¬ c = '[' :=
    fun c hc e => hprops c hc (Or.inr (Or.inr (Or.inr (Or.inr (Or.inl e)))))
  have plt : ∀ c ∈ y, ¬ c = '<' :=
    fun c hc e => hprops c hc (Or.inr (Or.inr (Or.inr (Or.inr (Or.inr (Or.inr (Or.inl e)))))))
  have pgt : ∀ c ∈ y, ¬ c = '>' :=
    fun c hc e => hprops c hc (Or.inr (Or.inr (Or.inr (Or.inr (Or.inr (Or.inr (Or.inr e)))))))
  simp only [cleanL]
  rw [sub_bold_noop y.length y (fun c hc => ⟨pstar c hc, punder c hc⟩)]
  rw [sub_italic_noop y.length none y (fun c hc => ⟨pstar c hc, punder c hc⟩)]
  rw [sub_strike_noop y.length y ptilde]
  rw [sub_code_noop y.length y ptick]
  rw [sub_links_noop y.length y pbrack]
  rw [remove_angles_noop y (fun c hc => ⟨plt c hc, pgt c hc⟩)]
  rw [unescape_noop '*' y pstar]
  rw [unescape_noop '_' y punder]
  rw [collapse_eq_self y.length y (le_refl _) hallSp hchain]
  exact stripL_eq_self hhead hlast

/-- C5, witness: one pass on `**bold**  *it*` yields `bold it`, which holds
no markdown delimiters, and the second pass leaves it unchanged. -/
theorem claim5_witness :
    no_markdown_delims (cleanL ("**bold**  *it*".data)) = true ∧
    cleanL (cleanL ("**bold**  *it*".data)) = cleanL ("**bold**  *it*".data) ∧
    cleanL ("**bold**  *it*".data) = "bold it".data :=
  ⟨by decide, claim5_clean_idempotent _ (by decide), by decide⟩
/-- C10, amended: the italic pattern requires at least two characters of
captured content (its capture group starts and ends with distinct
non-delimiter, non-space character positions), so an input that is exactly a
single-character italic span — `*c*` or `_c_` for a non-space character `c`
that is not itself a delimiter of one of the cleaning passes — is returned
completely unchanged by the Inline Cleaner.  (Such a span may still be
consumed as part of a longer italic match when more text follows, as in
`*x* *y*`; the original claim fails there.) -/
theorem claim10_amended (c : Char) (hws : pyIsSpace c = false) (h1 : ¬ c = '*')
    (h2 : ¬ c = '_') (h3 : ¬ c = '<') (h4 : ¬ c = '>') (h5 : ¬ c = '\\') :
    cleanL ['*', c, '*'] = ['*', c, '*'] ∧ cleanL ['_', c, '_'] = ['_', c, '_'] := by
  constructor
  · have hlen : (['*', c, '*'] : List Char).length = 3 := rfl
    have e1 : sub_bold_go 3 ['*', c, '*'] = ['*', c, '*'] := by
      simp [sub_bold_go, h1, h2]
    have e2 : sub_italic_go 3 none ['*', c, '*'] = ['*', c, '*'] := by
      simp [sub_italic_go, findIC, h1, h2, hws]
    have e3 : sub_strike_go 3 ['*', c, '*'] = ['*', c, '*'] := by
      simp [sub_strike_go, findDD]
    have e4 : sub_code_go 3 ['*', c, '*'] = ['*', c, '*'] := by
      by_cases hb : c = backtick <;> simp [sub_code_go, splitAtCh, backtick, hb]
    have e5 : sub_links_go 3 ['*', c, '*'] = ['*', c, '*'] := by
      by_cases hk : c = '[' <;> simp [sub_links_go, splitAtCh, hk]
    have e6 : remove_angles ['*', c, '*'] = ['*', c, '*'] := by
      simp [remove_angles, h3, h4]
    have e7 : unescape_char '*' ['*', c, '*'] = ['*', c, '*'] := by
      simp [unescape_char, h5, h1]
    have e8 : unescape_char '_' ['*', c, '*'] = ['*', c, '*'] := by
      simp [unescape_char, h5, h2]
    have e9 : collapse_ws_go 3 ['*', c, '*'] = ['*', c, '*'] := by
      simp [collapse_ws_go, hws, show pyIsSpace '*' = false from by decide]
    have e10 : stripL ['*', c, '*'] = ['*', c, '*'] := by
      simp [stripL, lstripL, rstripL, show pyIsSpace '*' = false from by decide]
    simp only [cleanL, hlen, e1, e2, e3, e4, e5, e6, e7, e8, e9, e10]
  · have hlen : (['_', c, '_'] : List Char).length = 3 := rfl
    have e1 : sub_bold_go 3 ['_', c, '_'] = ['_', c, '_'] := by
      simp [sub_bold_go, h1, h2]
    have e2 : sub_italic_go 3 none ['_', c, '_'] = ['_', c, '_'] := by
      simp [sub_italic_go, findIC, h1, h2, hws]
    have e3 : sub_strike_go 3 ['_', c, '_'] = ['_', c, '_'] := by
      simp [sub_strike_go, findDD]
    have e4 : sub_code_go 3 ['_', c, '_'] = ['_', c, '_'] := by
      by_cases hb : c = backtick <;> simp [sub_code_go, splitAtCh, backtick, hb]
    have e5 : sub_links_go 3 ['_', c, '_'] = ['_', c, '_'] := by
      by_cases hk : c = '[' <;> simp [sub_links_go, splitAtCh, hk]
    have e6 : remove_angles ['_', c, '_'] = ['_', c, '_'] := by
      simp [remove_angles, h3, h4]
    have e7 : unescape_char '*' ['_', c, '_'] = ['_', c, '_'] := by
      simp [unescape_char, h5, h1]
    have e8 : unescape_char '_' ['_', c, '_'] = ['_', c, '_'] := by
      simp [unescape_char, h5, h2]
    have e9 : collapse_ws_go 3 ['_', c, '_'] = ['_', c, '_'] := by
      simp [collapse_ws_go, hws, show pyIsSpace '_' = false from by decide]
    have e10 : stripL ['_', c, '_'] = ['_', c, '_'] := by
      simp [stripL, lstripL, rstripL, show pyIsSpace '_' = false from by decide]
    simp only [cleanL, hlen, e1, e2, e3, e4, e5, e6, e7, e8, e9, e10]

/-- C10, witness for the amended theorem: the inputs `*x*` and `_x_` are
returned unchanged by the Inline Cleaner. -/
theorem claim10_witness :
    cleanL ("*x*".data) = "*x*".data ∧ cleanL ("_x_".data) = "_x_".data :=
  claim10_amended 'x' (by decide) (by decide) (by decide) (by decide) (by decide) (by decide)
